import Mathlib

/-!
Shallow embedding of the fiber-forge color-region segmentation engine.

Source files embedded:
* src/utils/colorConversion.ts  (hexToRgb, rgbToHex)
* src/utils/colors.ts           (isColorSimilarHex, isTransparentPixel)
* src/utils/processImageColors.ts (processImageColors and its inner helpers
  getPixel, setProcessed/isProcessed, calculateAverageColor, findSimilarArea,
  createBase64Image)

Conventions of the embedding:
* JavaScript numbers are modelled exactly: byte values and counters as Nat,
  pixel coordinates as Int (the code forms x-1, which may be -1, and then
  bounds-checks it), the similarity threshold as Int (the segmentation
  contract declares an integer 0..100).
* The float comparison `distance <= (t/100)*sqrt(195075)` is modelled by the
  equivalent exact comparison of squares, `10000*distSq <= t^2*195075`
  (both sides are nonnegative once the 0..100 validation has passed).
* `Math.round(x)` for nonnegative x is `floor(x + 1/2)`; over naturals
  `round (p/q) = (2*p+q)/(2*q)` with Nat division.
* Thrown exceptions are modelled with `Except Err`; the engine's cooperative
  AbortSignal is modelled as a function `Nat -> Bool` consulted at the
  code's checkpoints, with a counter ticking once per consultation, so that
  a signal that "becomes triggered during processing" is expressible.
* The external PNG encoder (`createPngBase64`) is a parameter
  `png : List Nat -> Nat -> Nat -> Option String`; `none` models a thrown
  encoding error, which the source converts to the empty string.
* The `Uint8Array processed` bitmap is modelled as a function
  `Int x Int -> Bool`; the per-fill `Set<string>` of "x,y" keys is modelled
  as a list of coordinates (the key function is injective on pairs).
-/

/-- Error conditions that cross the public boundary of the engine:
`invalidArgument` models the thrown range errors, `cancelled` models
`AbortSignal.throwIfAborted`. -/
inductive Err where
  | invalidArgument : Err
  | cancelled : Err
deriving DecidableEq, Repr

deriving instance DecidableEq for Except

/-- A cooperative cancellation signal: `sig k` tells whether the signal is
observed as triggered at the k-th consultation (checkpoint). -/
def Sig : Type := Nat → Bool

/-- The never-triggered signal (absent / never aborted `AbortSignal`). -/
def sigNever : Sig := fun _ => false

/-- One `signal?.throwIfAborted()` checkpoint: consult the signal at the
current tick, fail with `cancelled` if triggered, otherwise advance the tick. -/
def checkSignal (sig : Sig) (t : Nat) : Except Err Nat :=
  if sig t then .error .cancelled else .ok (t + 1)

/-- Pixel buffer (`ImageData` of src/types): width, height, channel count,
flat row-major channel-interleaved byte array. -/
structure ImageData where
  width : Nat
  height : Nat
  channels : Nat
  data : List Nat
deriving DecidableEq, Repr

/-- Well-formedness from the data model: the flat array has exactly
width*height*channels entries and each entry is a byte. -/
def ImageData.WF (img : ImageData) : Prop :=
  img.data.length = img.width * img.height * img.channels ∧
  ∀ v ∈ img.data, v ≤ 255

instance (img : ImageData) : Decidable img.WF := by
  unfold ImageData.WF; infer_instance

/-- An (r,g,b,a) quadruple of bytes. -/
def RGBA : Type := Nat × Nat × Nat × Nat

/-- `getPixel(x, y)` of processImageColors.ts: reads the four channels at
offset `(y*width+x)*channels`; when channels is not 4 the alpha is 255.
All call sites in the source bounds-check (x,y) first. -/
def getPixel (img : ImageData) (x y : Int) : RGBA :=
  let idx : Int := (y * img.width + x) * img.channels
  ( img.data.getD idx.toNat 0
  , img.data.getD (idx.toNat + 1) 0
  , img.data.getD (idx.toNat + 2) 0
  , if img.channels = 4 then img.data.getD (idx.toNat + 3) 0 else 255 )

/-- Alpha channel of a pixel quadruple. -/
def alphaOf (p : RGBA) : Nat := p.2.2.2

/-- `isTransparentPixel` of colors.ts: alpha at most the threshold
(default 10). -/
def isTransparentPixel (p : RGBA) (alphaThreshold : Nat := 10) : Bool :=
  alphaOf p ≤ alphaThreshold

/-- Hex digit character for a value 0..15, lowercase, as produced by
JavaScript `Number.prototype.toString(16)`. -/
def hexDigitChar (n : Nat) : Char :=
  if n < 10 then Char.ofNat (48 + n) else Char.ofNat (87 + n)

/-- JavaScript `n.toString(16)` for a natural number: lowercase hex digits,
no padding, "0" for zero. -/
def natToHexStr (n : Nat) : String :=
  String.mk (Nat.toDigits 16 n)

/-- The `toHex` helper inside `rgbToHex` of colorConversion.ts: hex string
of the (already integral) value, left-padded to length 2 with '0'. -/
def toHexByte (n : Nat) : String :=
  let hex := natToHexStr n
  if hex.length = 1 then "0" ++ hex else hex

/-- `rgbToHex` of colorConversion.ts on an (r,g,b) triple. -/
def rgbToHex (r g b : Nat) : String :=
  "#" ++ toHexByte r ++ toHexByte g ++ toHexByte b

/-- `rgbToHex` applied to a pixel quadruple (the alpha is ignored by the
source, which destructures only the first three components). -/
def rgbaToHex (p : RGBA) : String :=
  rgbToHex p.1 p.2.1 p.2.2.1

/-- Value of a hex digit character, accepting both cases, as JavaScript
`parseInt(-, 16)` does. -/
def hexDigitVal (c : Char) : Option Nat :=
  if 48 ≤ c.toNat ∧ c.toNat ≤ 57 then some (c.toNat - 48)
  else if 97 ≤ c.toNat ∧ c.toNat ≤ 102 then some (c.toNat - 87)
  else if 65 ≤ c.toNat ∧ c.toNat ≤ 70 then some (c.toNat - 55)
  else none

/-- JavaScript `parseInt(s, 16)`: parse the longest prefix of hex digits;
an empty prefix yields NaN, which the subsequent bitwise operations of
`hexToRgb` turn into 0 — modelled directly as 0 here. -/
def parseHexNum (cs : List Char) : Nat :=
  let rec go : List Char → Nat → Nat
    | [], acc => acc
    | c :: rest, acc =>
      match hexDigitVal c with
      | some v => go rest (acc * 16 + v)
      | none => acc
  go cs 0

/-- `hexToRgb` of colorConversion.ts: strip one leading '#', expand a
3-digit shorthand by doubling each character, parse as hex, and extract
the three bytes with shifts and masks.  The JavaScript bitwise operators
work on the number modulo 2^32, which the `% 2^32` reproduces. -/
def hexToRgb (hex : String) : Nat × Nat × Nat :=
  let cs := hex.toList
  let cs := match cs with
    | '#' :: rest => rest
    | _ => cs
  let cs := if cs.length = 3 then cs.flatMap (fun c => [c, c]) else cs
  let num := parseHexNum cs % (2 ^ 32)
  ((num / 2 ^ 16) % 256, (num / 2 ^ 8) % 256, num % 256)

/-- Squared RGB Euclidean distance between two parsed hex colors (the
source compares `Math.sqrt` of this against the scaled threshold; the
comparison is embedded in squared form). -/
def colorDistSq (c1 c2 : String) : Int :=
  let p1 := hexToRgb c1
  let p2 := hexToRgb c2
  ((p1.1 : Int) - p2.1) ^ 2 + ((p1.2.1 : Int) - p2.2.1) ^ 2 +
    ((p1.2.2 : Int) - p2.2.2) ^ 2

/-- `isColorSimilarHex` of colors.ts: throws when the threshold percent is
outside [0,100]; otherwise true iff the RGB distance is at most
`(t/100) * sqrt(255^2*3)`, here compared with both sides squared
(valid since both are nonnegative after validation).  The threshold is an
integer, as the segmentation contract declares it. -/
def isColorSimilarHex (c1 c2 : String) (thresholdPercent : Int) :
    Except Err Bool :=
  if thresholdPercent < 0 ∨ thresholdPercent > 100 then
    .error .invalidArgument
  else
    .ok (decide (colorDistSq c1 c2 * 10000 ≤
      thresholdPercent ^ 2 * 195075))

/-- JavaScript `Math.round(p/q)` for naturals (round half up):
`floor(p/q + 1/2)`. -/
def roundDiv (p q : Nat) : Nat := (2 * p + q) / (2 * q)

/-- `calculateAverageColor` of processImageColors.ts: sum the three color
channels over the given coordinates, divide by the count, `Math.round`
each channel, and format with `rgbToHex`. -/
def calculateAverageColor (img : ImageData) (pixels : List (Int × Int)) :
    String :=
  let sums := pixels.foldl
    (fun (acc : Nat × Nat × Nat) c =>
      let px := getPixel img c.1 c.2
      (acc.1 + px.1, acc.2.1 + px.2.1, acc.2.2 + px.2.2.1))
    (0, 0, 0)
  let count := pixels.length
  rgbToHex (roundDiv sums.1 count) (roundDiv sums.2.1 count)
    (roundDiv sums.2.2 count)

/-- The sub-record `imagePart` of a region result. -/
structure ImagePart where
  base64 : String
  marginX : Int
  marginY : Int
  marginXPercent : Rat
  marginYPercent : Rat
  widthPercent : Rat
  heightPercent : Rat
deriving DecidableEq, Repr

/-- A raw region record as built inside `findSimilarArea`, before the area
filter.  `pixels` is the opacity-filtered member list the source stores in
the result; `rawMembers` is `tempArea`, the member list before the
opacity re-filter (the source holds it in a local variable). -/
structure RawRegion where
  color : String
  imagePart : ImagePart
  pixelCount : Nat
  pixels : List (Int × Int)
  rawMembers : List (Int × Int)
deriving DecidableEq, Repr

/-- A public region result, after the area filter strips the member list
(`({pixels: _pixels, ...area})` in the source). -/
structure PublicRegion where
  color : String
  imagePart : ImagePart
  pixelCount : Nat
deriving DecidableEq, Repr

/-- The external PNG encoder `createPngBase64`: given the RGBA byte buffer
and its dimensions, either a base64 string or failure. -/
def PngEncoder : Type := List Nat → Nat → Nat → Option String

/-- `createBase64Image` of processImageColors.ts: build a crop buffer of the
bounding box, transparent white everywhere, the member pixels copied from
the source image, and hand it to the external encoder; an encoder failure
becomes the empty string. -/
def createBase64Image (img : ImageData) (png : PngEncoder)
    (pixels : List (Int × Int)) (minX minY maxX maxY : Int) : String :=
  let areaWidth := (maxX - minX + 1).toNat
  let areaHeight := (maxY - minY + 1).toNat
  let base : List Nat :=
    (List.replicate (areaWidth * areaHeight) [255, 255, 255, 0]).flatten
  let tempData := pixels.foldl
    (fun (dat : List Nat) c =>
      let localX := (c.1 - minX).toNat
      let localY := (c.2 - minY).toNat
      let idx := (localY * areaWidth + localX) * 4
      let px := getPixel img c.1 c.2
      ((((dat.set idx px.1).set (idx + 1) px.2.1).set
        (idx + 2) px.2.2.1).set (idx + 3) px.2.2.2))
    base
  match png tempData areaWidth areaHeight with
  | some s => s
  | none => ""

/-- State of the flood-fill `while` loop of `findSimilarArea`:
the FIFO queue, the accumulated member list `tempArea`, the running
average color, the checkpoint counter `lastTripleSize`, the incremental
bounding box, the per-fill visited set, the global processed bitmap, the
iteration counter, and the signal tick. -/
structure FillState where
  queue : List (Int × Int)
  tempArea : List (Int × Int)
  avg : String
  lastTripleSize : Nat
  minX : Int
  maxX : Int
  minY : Int
  maxY : Int
  visited : List (Int × Int)
  processedMap : Int × Int → Bool
  iterationCount : Nat
  time : Nat

/-- The neighbor loop of `findSimilarArea` (the `for (const neighbor of
neighbors)` body): bounds check, global processed check, per-fill visited
check, transparency boundary, then the similarity test against the current
running average; similar neighbors are marked visited+processed and
enqueued, dissimilar ones are marked processed only. -/
def visitNeighbors (img : ImageData) (threshold : Int) (avg : String) :
    List (Int × Int) → List (Int × Int) → List (Int × Int) →
    (Int × Int → Bool) →
    Except Err (List (Int × Int) × List (Int × Int) × (Int × Int → Bool))
  | [], queue, visited, processedMap => .ok (queue, visited, processedMap)
  | n :: ns, queue, visited, processedMap =>
    if n.1 < 0 ∨ n.1 ≥ (img.width : Int) ∨ n.2 < 0 ∨ n.2 ≥ (img.height : Int)
    then
      visitNeighbors img threshold avg ns queue visited processedMap
    else if processedMap n then
      visitNeighbors img threshold avg ns queue visited processedMap
    else if n ∈ visited then
      visitNeighbors img threshold avg ns queue visited processedMap
    else
      let px := getPixel img n.1 n.2
      if isTransparentPixel px then
        visitNeighbors img threshold avg ns queue visited
          (fun c => if c = n then true else processedMap c)
      else do
        let similar ← isColorSimilarHex avg (rgbaToHex px) threshold
        if similar then
          visitNeighbors img threshold avg ns (queue ++ [n]) (n :: visited)
            (fun c => if c = n then true else processedMap c)
        else
          visitNeighbors img threshold avg ns queue visited
            (fun c => if c = n then true else processedMap c)

/-- The `if (iterationCount % 1000 === 0) signal?.throwIfAborted()` step at
the top of each fill iteration: a signal checkpoint on every 1000th
iteration, a no-op otherwise. -/
def fillTick (sig : Sig) (iter time : Nat) : Except Err Nat :=
  if iter % 1000 = 0 then checkSignal sig time else .ok time

/-- The `while (queue.length > 0 && iterationCount < maxIterations)` loop of
`findSimilarArea`, with the remaining iteration budget as fuel (the source
initializes the budget to `width*height`).  Each iteration: bump the
counter, consult the signal every 1000 iterations, pop, skip transparent
pops defensively, append to `tempArea`, extend the bounding box, recompute
the running average at tripling checkpoints, and process the 4-neighbors. -/
def floodLoop (img : ImageData) (threshold : Int) (sig : Sig) :
    Nat → FillState → Except Err FillState
  | 0, st => .ok st
  | fuel + 1, st =>
    match st.queue with
    | [] => .ok st
    | current :: rest => do
      let iter := st.iterationCount + 1
      let time ← fillTick sig iter st.time
      if isTransparentPixel (getPixel img current.1 current.2) then
        floodLoop img threshold sig fuel
          { st with queue := rest, iterationCount := iter, time := time }
      else
        let tempArea := st.tempArea ++ [current]
        let minX := min st.minX current.1
        let maxX := max st.maxX current.1
        let minY := min st.minY current.2
        let maxY := max st.maxY current.2
        let avgPair : String × Nat :=
          if tempArea.length ≥ st.lastTripleSize * 3 ∧ 0 < st.lastTripleSize
          then (calculateAverageColor img tempArea, tempArea.length)
          else if st.lastTripleSize = 0 then (st.avg, 1)
          else (st.avg, st.lastTripleSize)
        let neighbors : List (Int × Int) :=
          [ (current.1 - 1, current.2), (current.1 + 1, current.2)
          , (current.1, current.2 - 1), (current.1, current.2 + 1) ]
        let step ← visitNeighbors img threshold avgPair.1 neighbors rest
          st.visited st.processedMap
        floodLoop img threshold sig fuel
          { queue := step.1, tempArea := tempArea, avg := avgPair.1
          , lastTripleSize := avgPair.2
          , minX := minX, maxX := maxX, minY := minY, maxY := maxY
          , visited := step.2.1, processedMap := step.2.2
          , iterationCount := iter, time := time }

/-- The tail of `findSimilarArea` after its `while` loop (lines 212-259 of
processImageColors.ts): the empty-area discards, the opacity re-filter, the
recomputed bounding box, the final average color, the crop export, and the
assembled region record.  This part is pure: it never throws. -/
def finalizeArea (img : ImageData) (png : PngEncoder) (st : FillState) :
    Option RawRegion × (Int × Int → Bool) × Nat × Nat :=
  if st.tempArea = [] then
    (none, st.processedMap, st.time, st.iterationCount)
  else
    let filteredArea := st.tempArea.filter
      (fun c => 10 < alphaOf (getPixel img c.1 c.2))
    if filteredArea = [] then
      (none, st.processedMap, st.time, st.iterationCount)
    else
      let allX := filteredArea.map Prod.fst
      let allY := filteredArea.map Prod.snd
      let filteredMinX := allX.foldl min (allX.headD 0)
      let filteredMaxX := allX.foldl max (allX.headD 0)
      let filteredMinY := allY.foldl min (allY.headD 0)
      let filteredMaxY := allY.foldl max (allY.headD 0)
      let finalAverageColor := calculateAverageColor img filteredArea
      let pixelCount := filteredArea.length
      let base64Image := createBase64Image img png filteredArea
        filteredMinX filteredMinY filteredMaxX filteredMaxY
      let areaWidth := filteredMaxX - filteredMinX + 1
      let areaHeight := filteredMaxY - filteredMinY + 1
      (some
        { color := finalAverageColor
        , imagePart :=
          { base64 := base64Image
          , marginX := filteredMinX
          , marginY := filteredMinY
          , marginXPercent := (filteredMinX : Rat) / img.width * 100
          , marginYPercent := (filteredMinY : Rat) / img.height * 100
          , widthPercent := (areaWidth : Rat) / img.width * 100
          , heightPercent := (areaHeight : Rat) / img.height * 100 }
        , pixelCount := pixelCount
        , pixels := filteredArea
        , rawMembers := st.tempArea }
        , st.processedMap, st.time, st.iterationCount)

/-- `findSimilarArea(startX, startY)` of processImageColors.ts.  Returns the
optional raw region, the updated processed bitmap, the signal tick, and the
final iteration count of the fill loop (the counter the source checks for
its cap warning). -/
def findSimilarArea (img : ImageData) (threshold : Int) (png : PngEncoder)
    (sig : Sig) (startX startY : Int) (processedMap : Int × Int → Bool)
    (time : Nat) :
    Except Err (Option RawRegion × (Int × Int → Bool) × Nat × Nat) := do
  let time ← checkSignal sig time
  let targetPixel := getPixel img startX startY
  if isTransparentPixel targetPixel then
    .ok (none, processedMap, time, 0)
  else
    let st0 : FillState :=
      { queue := [(startX, startY)], tempArea := []
      , avg := rgbaToHex targetPixel, lastTripleSize := 0
      , minX := startX, maxX := startX, minY := startY, maxY := startY
      , visited := [(startX, startY)]
      , processedMap :=
          fun c => if c = (startX, startY) then true else processedMap c
      , iterationCount := 0, time := time }
    let st ← floodLoop img threshold sig (img.width * img.height) st0
    .ok (finalizeArea img png st)

/-- State threaded through the outer row-major scan: the processed bitmap,
the accumulated raw results, and the signal tick. -/
structure ScanState where
  processedMap : Int × Int → Bool
  results : List RawRegion
  time : Nat

/-- The inner `for (let x = 0; ...)` of the main loop: skip processed or
transparent pixels, otherwise run `findSimilarArea` and push a produced
region. -/
def colLoop (img : ImageData) (threshold : Int) (png : PngEncoder)
    (sig : Sig) (y : Int) :
    List Int → ScanState → Except Err ScanState
  | [], st => .ok st
  | x :: xs, st =>
    if st.processedMap (x, y) then
      colLoop img threshold png sig y xs st
    else if isTransparentPixel (getPixel img x y) then
      colLoop img threshold png sig y xs st
    else do
      let out ← findSimilarArea img threshold png sig x y st.processedMap
        st.time
      colLoop img threshold png sig y xs
        { processedMap := out.2.1
        , results := st.results ++ out.1.toList
        , time := out.2.2.1 }

/-- The outer `for (let y = 0; ...)` of the main loop, with a signal
checkpoint at the start of each row. -/
def rowLoop (img : ImageData) (threshold : Int) (png : PngEncoder)
    (sig : Sig) : List Int → ScanState → Except Err ScanState
  | [], st => .ok st
  | y :: ys, st => do
    let time ← checkSignal sig st.time
    let st' ← colLoop img threshold png sig y
      ((List.range img.width).map Int.ofNat) { st with time := time }
    rowLoop img threshold png sig ys st'

/-- The validated core of `processImageColors`: the two signal checks before
the main loop, the row-major scan, and the final signal check, returning
the raw results, the final processed bitmap and the final tick.  The
threshold validation lives in `processImageColors` below, exactly as the
source performs it before anything else. -/
def processScan (img : ImageData) (threshold : Int) (png : PngEncoder)
    (sig : Sig) :
    Except Err (List RawRegion × (Int × Int → Bool) × Nat) := do
  let t1 ← checkSignal sig 0
  let t2 ← checkSignal sig t1
  let st ← rowLoop img threshold png sig
    ((List.range img.height).map Int.ofNat)
    { processedMap := fun _ => false, results := [], time := t2 }
  let t3 ← checkSignal sig st.time
  .ok (st.results, st.processedMap, t3)

/-- `processImageColors` of processImageColors.ts: threshold validation,
the scan, then the area filter that drops regions below
`minimalSquarePixelArea` and strips the internal member lists.  The final
signal tick is returned alongside the public list. -/
def processImageColors (img : ImageData) (threshold : Int)
    (minimalSquarePixelArea : Nat) (sig : Sig) (png : PngEncoder) :
    Except Err (List PublicRegion × Nat) :=
  if threshold < 0 ∨ threshold > 100 then .error .invalidArgument
  else do
    let out ← processScan img threshold png sig
    let filteredResults := (out.1.filter
      (fun r => minimalSquarePixelArea ≤ r.pixelCount)).map
      (fun r =>
        { color := r.color, imagePart := r.imagePart
        , pixelCount := r.pixelCount : PublicRegion })
    .ok (filteredResults, out.2.2)

/-- The raw (pre-area-filter) region list of a scan outcome; empty when the
scan failed. -/
def scanRegions (out : Except Err (List RawRegion × (Int × Int → Bool) × Nat)) :
    List RawRegion :=
  match out with
  | .ok o => o.1
  | .error _ => []

/-- The final processed bitmap of a scan outcome; everything-processed when
the scan failed (the bitmap is only meaningful for successful scans). -/
def scanProcessed (out : Except Err (List RawRegion × (Int × Int → Bool) × Nat)) :
    Int × Int → Bool :=
  match out with
  | .ok o => o.2.1
  | .error _ => fun _ => true

/-- The public region list of a `processImageColors` outcome; empty when the
call failed. -/
def publicRegions (out : Except Err (List PublicRegion × Nat)) :
    List PublicRegion :=
  match out with
  | .ok o => o.1
  | .error _ => []

/-- Coordinate is inside the image. -/
def inBounds (img : ImageData) (c : Int × Int) : Prop :=
  0 ≤ c.1 ∧ c.1 < (img.width : Int) ∧ 0 ≤ c.2 ∧ c.2 < (img.height : Int)

instance (img : ImageData) (c : Int × Int) : Decidable (inBounds img c) := by
  unfold inBounds; infer_instance

/-- Spec-side rounding ("rounded to nearest integer", half rounding up, on
nonnegative channel means). -/
def specRound (q : Rat) : Nat := ⌊q + 1 / 2⌋₊

/-- Spec-side formatting of one byte as two lowercase hex digits. -/
def specHexByte (n : Nat) : String :=
  String.mk [hexDigitChar (n / 16), hexDigitChar (n % 16)]

/-- Modelled from the spec, for the refinement claim about the reported
region color: "arithmetic mean of R, G, B across the given coordinate list
(reading each via the Pixel Accessor), rounded to nearest integer per
channel, formatted as 6-hex-digit lowercase with leading '#'". -/
def specAverageColor (img : ImageData) (pixels : List (Int × Int)) : String :=
  let n := pixels.length
  let rMean : Rat := ((pixels.map (fun c => (getPixel img c.1 c.2).1)).sum : Nat) / n
  let gMean : Rat := ((pixels.map (fun c => (getPixel img c.1 c.2).2.1)).sum : Nat) / n
  let bMean : Rat := ((pixels.map (fun c => (getPixel img c.1 c.2).2.2.1)).sum : Nat) / n
  "#" ++ specHexByte (specRound rMean) ++ specHexByte (specRound gMean) ++
    specHexByte (specRound bMean)

/-- A PNG encoder stub for the concrete scenarios (the claims never inspect
the base64 payload). -/
def png0 : PngEncoder := fun _ _ _ => some ""

/-- The always-triggered cancellation signal. -/
def sigAlways : Sig := fun _ => true

/-- Scenario B's buffer: 2x2, channels 4, all four pixels (255,0,0,255). -/
def red4 : ImageData :=
  { width := 2, height := 2, channels := 4
  , data := [255,0,0,255, 255,0,0,255, 255,0,0,255, 255,0,0,255] }

/-- A 6x1 grayscale strip used to refute threshold monotonicity: values
0, 30, 60, 85, 35, 80, all fully opaque. -/
def gray6 : ImageData :=
  { width := 6, height := 1, channels := 4
  , data := [ 0,0,0,255, 30,30,30,255, 60,60,60,255
            , 85,85,85,255, 35,35,35,255, 80,80,80,255 ] }

/-- A 2x1 buffer (black pixel, white pixel, both opaque) used to refute the
coverage claim: at threshold 0 the white pixel is rejected as a dissimilar
neighbor and lands in no member list. -/
def blackWhite : ImageData :=
  { width := 2, height := 1, channels := 4
  , data := [0,0,0,255, 255,255,255,255] }

/-- An empty buffer for the degenerate-size scenario. -/
def emptyImage : ImageData :=
  { width := 0, height := 0, channels := 4, data := [] }

/-- Default region used with `List.getD` in closed witnesses. -/
def dfltRegion : RawRegion :=
  { color := "", imagePart :=
    { base64 := "", marginX := 0, marginY := 0, marginXPercent := 0
    , marginYPercent := 0, widthPercent := 0, heightPercent := 0 }
  , pixelCount := 0, pixels := [], rawMembers := [] }

/-- Per-region facts that hold for every raw region the scan emits: the
reported color is `calculateAverageColor` of the stored (opacity-filtered)
member list, the pixel count is its length, the opacity re-filter removed
nothing (the member list before and after it coincide), and the list is
nonempty. -/
def RegionOk (img : ImageData) (reg : RawRegion) : Prop :=
  reg.color = calculateAverageColor img reg.pixels ∧
  reg.pixelCount = reg.pixels.length ∧
  reg.pixels = reg.rawMembers ∧
  reg.pixels ≠ []

/-- Two region records share no member pixel. -/
def pixelsDisjoint (a b : RawRegion) : Prop :=
  ∀ c, c ∈ a.pixels → c ∈ b.pixels → False

/-- Invariant of the outer scan: all emitted members are marked processed,
the emitted member lists are pairwise disjoint, and each emitted region
satisfies `RegionOk`. -/
def ScanInv (img : ImageData) (st : ScanState) : Prop :=
  (∀ reg ∈ st.results, ∀ c ∈ reg.pixels, st.processedMap c = true) ∧
  List.Pairwise pixelsDisjoint st.results ∧
  (∀ reg ∈ st.results, RegionOk img reg)

/-- Invariant of the flood-fill loop, relative to the processed bitmap `p0`
that was current when the enclosing fill started: the bitmap grows
monotonically, every queued or collected pixel was unprocessed at fill
start and is marked processed now, and every collected pixel is opaque. -/
def FillInv (img : ImageData) (p0 : Int × Int → Bool) (st : FillState) :
    Prop :=
  (∀ c, p0 c = true → st.processedMap c = true) ∧
  (∀ c ∈ st.queue ++ st.tempArea,
    p0 c = false ∧ st.processedMap c = true) ∧
  (∀ c ∈ st.tempArea, isTransparentPixel (getPixel img c.1 c.2) = false)

theorem except_bind_ok {ε α β : Type} {e : Except ε α} {f : α → Except ε β}
    {b : β} (h : (e >>= f) = .ok b) : ∃ a, e = .ok a ∧ f a = .ok b := by
  cases e with
  | error err => exact Except.noConfusion h
  | ok a => exact ⟨a, rfl, h⟩

theorem except_bind_err {ε α β : Type} {e : Except ε α} {f : α → Except ε β}
    {err : ε} (h : (e >>= f) = .error err) :
    e = .error err ∨ ∃ a, e = .ok a ∧ f a = .error err := by
  cases e with
  | error e0 =>
    left
    have h' : (Except.error e0 : Except ε β) = Except.error err := h
    injection h' with h'
    rw [h']
  | ok a => exact Or.inr ⟨a, rfl, h⟩

theorem except_ok_bind {ε α β : Type} {a : α} {f : α → Except ε β} :
    ((Except.ok a : Except ε α) >>= f) = f a := rfl

theorem checkSignal_ok {sig : Sig} {t t' : Nat}
    (h : checkSignal sig t = .ok t') : t' = t + 1 ∧ sig t = false := by
  unfold checkSignal at h
  split at h
  · exact absurd h (by simp)
  · rename_i hs
    injection h with h'
    exact ⟨h'.symm, by simpa using hs⟩

theorem checkSignal_err {sig : Sig} {t : Nat} {e : Err}
    (h : checkSignal sig t = .error e) : e = .cancelled ∧ sig t = true := by
  unfold checkSignal at h
  split at h
  · rename_i hs
    injection h with h'
    exact ⟨h'.symm, hs⟩
  · exact absurd h (by simp)

theorem checkSignal_false {sig : Sig} {t : Nat} (h : sig t = false) :
    checkSignal sig t = .ok (t + 1) := by
  unfold checkSignal
  simp [h]

theorem isColorSimilarHex_valid {t : Int} (h0 : 0 ≤ t) (h1 : t ≤ 100)
    (c1 c2 : String) :
    isColorSimilarHex c1 c2 t =
      .ok (decide (colorDistSq c1 c2 * 10000 ≤ t ^ 2 * 195075)) := by
  unfold isColorSimilarHex
  rw [if_neg]
  omega

theorem fillTick_ok {sig : Sig} {iter time time' : Nat}
    (h : fillTick sig iter time = .ok time') :
    time ≤ time' ∧ (∀ k, time ≤ k → k < time' → sig k = false) ∧
    ∀ sig2 : Sig, (∀ j, sig2 j = false) → fillTick sig2 iter time = .ok time' := by
  unfold fillTick at h ⊢
  split at h <;> rename_i hc
  · obtain ⟨h1, h2⟩ := checkSignal_ok h
    subst h1
    refine ⟨Nat.le_succ _, fun k hk1 hk2 => ?_, fun sig2 hs2 => ?_⟩
    · have : k = time := by omega
      rw [this]; exact h2
    · rw [if_pos hc]; exact checkSignal_false (hs2 time)
  · injection h with h'
    subst h'
    exact ⟨le_refl _, fun k hk1 hk2 => absurd hk2 (by omega),
      fun sig2 _ => by rw [if_neg hc]⟩

theorem fillTick_err {sig : Sig} {iter time : Nat} {e : Err}
    (h : fillTick sig iter time = .error e) : e = .cancelled := by
  unfold fillTick at h
  split at h
  · exact (checkSignal_err h).1
  · exact absurd h (by simp)

theorem fillTick_total {sig : Sig} (hs : ∀ k, sig k = false)
    (iter time : Nat) : ∃ time', fillTick sig iter time = .ok time' := by
  unfold fillTick
  split
  · exact ⟨time + 1, checkSignal_false (hs time)⟩
  · exact ⟨time, rfl⟩

theorem visitNeighbors_spec (img : ImageData) (t : Int) (avg : String) :
    ∀ (ns queue visited : List (Int × Int)) (p : Int × Int → Bool)
      (q' v' : List (Int × Int)) (p' : Int × Int → Bool),
    visitNeighbors img t avg ns queue visited p = .ok (q', v', p') →
    (∀ c, p c = true → p' c = true) ∧
    (∀ c ∈ q', c ∈ queue ∨
      (p c = false ∧ p' c = true ∧ inBounds img c ∧
        isTransparentPixel (getPixel img c.1 c.2) = false)) := by
  intro ns
  induction ns with
  | nil =>
    intro queue visited p q' v' p' h
    simp only [visitNeighbors, Except.ok.injEq, Prod.mk.injEq] at h
    obtain ⟨h1, h2, h3⟩ := h
    subst h1; subst h3
    exact ⟨fun c hc => hc, fun c hc => Or.inl hc⟩
  | cons n ns ih =>
    intro queue visited p q' v' p' h
    rw [visitNeighbors] at h
    split at h
    · exact ih _ _ _ _ _ _ h
    · split at h
      · exact ih _ _ _ _ _ _ h
      · split at h
        · exact ih _ _ _ _ _ _ h
        · simp only [] at h
          split at h
          · -- transparent neighbor: mark processed, do not enqueue
            obtain ⟨hmono, hdec⟩ := ih _ _ _ _ _ _ h
            constructor
            · intro c hc
              exact hmono c (by by_cases hcn : c = n <;> simp [hcn, hc])
            · intro c hc
              rcases hdec c hc with hq | ⟨hf, hrest⟩
              · exact Or.inl hq
              · refine Or.inr ⟨?_, hrest⟩
                by_cases hcn : c = n <;> simp [hcn] at hf ⊢
                exact hf
          · -- similarity test
            rename_i hb hp hv htr
            obtain ⟨similar, he, h⟩ := except_bind_ok h
            split at h
            · -- similar: enqueue, mark visited and processed
              obtain ⟨hmono, hdec⟩ := ih _ _ _ _ _ _ h
              constructor
              · intro c hc
                exact hmono c (by by_cases hcn : c = n <;> simp [hcn, hc])
              · intro c hc
                rcases hdec c hc with hq | ⟨hf, hrest⟩
                · rcases List.mem_append.1 hq with hq | hq
                  · exact Or.inl hq
                  · -- c = n, the freshly enqueued neighbor
                    have hcn : c = n := by simpa using hq
                    subst hcn
                    refine Or.inr ⟨?_, ?_, ?_, ?_⟩
                    · simpa using hp
                    · exact hmono c (by simp)
                    · unfold inBounds; push_neg at hb; omega
                    · simpa using htr
                · refine Or.inr ⟨?_, hrest⟩
                  by_cases hcn : c = n <;> simp [hcn] at hf ⊢
                  exact hf
            · -- dissimilar: mark processed only
              obtain ⟨hmono, hdec⟩ := ih _ _ _ _ _ _ h
              constructor
              · intro c hc
                exact hmono c (by by_cases hcn : c = n <;> simp [hcn, hc])
              · intro c hc
                rcases hdec c hc with hq | ⟨hf, hrest⟩
                · exact Or.inl hq
                · refine Or.inr ⟨?_, hrest⟩
                  by_cases hcn : c = n <;> simp [hcn] at hf ⊢
                  exact hf

theorem visitNeighbors_total (img : ImageData) {t : Int} (h0 : 0 ≤ t)
    (h1 : t ≤ 100) (avg : String) :
    ∀ (ns queue visited : List (Int × Int)) (p : Int × Int → Bool),
    ∃ out, visitNeighbors img t avg ns queue visited p = .ok out := by
  intro ns
  induction ns with
  | nil =>
    intro queue visited p
    exact ⟨(queue, visited, p), by rw [visitNeighbors]⟩
  | cons n ns ih =>
    intro queue visited p
    rw [visitNeighbors]
    split
    · exact ih _ _ _
    · split
      · exact ih _ _ _
      · split
        · exact ih _ _ _
        · simp only []
          split
          · exact ih _ _ _
          · rw [isColorSimilarHex_valid h0 h1, except_ok_bind]
            split
            · exact ih _ _ _
            · exact ih _ _ _

theorem floodLoop_mono (img : ImageData) (t : Int) (sig : Sig) :
    ∀ (fuel : Nat) (st st' : FillState),
    floodLoop img t sig fuel st = .ok st' →
    ∀ c, st.processedMap c = true → st'.processedMap c = true := by
  intro fuel
  induction fuel with
  | zero =>
    intro st st' h c hc
    injection h with h
    rw [← h]; exact hc
  | succ fuel ih =>
    intro st st' h c hc
    rw [floodLoop] at h
    split at h
    · injection h with h; rw [← h]; exact hc
    · rename_i current rest hq
      simp only [] at h
      obtain ⟨time, htime, h⟩ := except_bind_ok h
      split at h
      · exact ih _ _ h c hc
      · obtain ⟨step, hvn, h⟩ := except_bind_ok h
        obtain ⟨hmono, -⟩ := visitNeighbors_spec img t _ _ _ _ _ _ _ _ hvn
        exact ih _ _ h c (hmono c hc)

theorem floodLoop_inv (img : ImageData) (t : Int) (sig : Sig)
    (p0 : Int × Int → Bool) :
    ∀ (fuel : Nat) (st st' : FillState),
    floodLoop img t sig fuel st = .ok st' →
    FillInv img p0 st → FillInv img p0 st' := by
  intro fuel
  induction fuel with
  | zero =>
    intro st st' h hI
    injection h with h
    rw [← h]; exact hI
  | succ fuel ih =>
    intro st st' h hI
    rw [floodLoop] at h
    split at h
    · injection h with h; rw [← h]; exact hI
    · rename_i current rest hq
      obtain ⟨hIm, hIq, hIt⟩ := hI
      simp only [] at h
      obtain ⟨time, htime, h⟩ := except_bind_ok h
      split at h
      · -- transparent pop is skipped
        refine ih _ _ h ⟨hIm, ?_, hIt⟩
        intro c hc
        exact hIq c (by
          rw [hq]
          rcases List.mem_append.1 hc with hc | hc
          · exact List.mem_append.2 (Or.inl (List.mem_cons_of_mem _ hc))
          · exact List.mem_append.2 (Or.inr hc))
      · -- opaque pop: collect it and process the neighbors
        rename_i htr
        obtain ⟨step, hvn, h⟩ := except_bind_ok h
        obtain ⟨hmono, hdec⟩ := visitNeighbors_spec img t _ _ _ _ _ _ _ _ hvn
        have hcur : current ∈ st.queue ++ st.tempArea := by
          rw [hq]; exact List.mem_append.2 (Or.inl (List.mem_cons_self _ _))
        have hrest : ∀ c ∈ rest, p0 c = false ∧ st.processedMap c = true := by
          intro c hc
          exact hIq c (by
            rw [hq]
            exact List.mem_append.2 (Or.inl (List.mem_cons_of_mem _ hc)))
        refine ih _ _ h ⟨?_, ?_, ?_⟩
        · intro c hc
          exact hmono c (hIm c hc)
        · intro c hc
          simp only [List.mem_append] at hc
          rcases hc with hc | hc | hc
          · -- still queued after the neighbor step
            rcases hdec c hc with hcr | ⟨hf, hp', -, -⟩
            · obtain ⟨h1, h2⟩ := hrest c hcr
              exact ⟨h1, hmono c h2⟩
            · refine ⟨?_, hp'⟩
              by_contra hcon
              have : st.processedMap c = true :=
                hIm c (by simpa using hcon)
              rw [this] at hf
              exact Bool.noConfusion hf
          · obtain ⟨h1, h2⟩ := hIq c (List.mem_append.2 (Or.inr hc))
            exact ⟨h1, hmono c h2⟩
          · have hcc : c = current := by simpa using hc
            subst hcc
            obtain ⟨h1, h2⟩ := hIq c hcur
            exact ⟨h1, hmono c h2⟩
        · intro c hc
          rcases List.mem_append.1 hc with hc | hc
          · exact hIt c hc
          · have hcc : c = current := by simpa using hc
            subst hcc
            simpa using htr

theorem floodLoop_sig (img : ImageData) (t : Int) (sig : Sig) :
    ∀ (fuel : Nat) (st st' : FillState),
    floodLoop img t sig fuel st = .ok st' →
    st.time ≤ st'.time ∧
    (∀ k, st.time ≤ k → k < st'.time → sig k = false) ∧
    (∀ sig2 : Sig, (∀ j, sig2 j = false) →
      floodLoop img t sig2 fuel st = .ok st') := by
  intro fuel
  induction fuel with
  | zero =>
    intro st st' h
    injection h with h
    subst h
    exact ⟨le_refl _, fun k hk1 hk2 => absurd hk2 (by omega),
      fun sig2 _ => rfl⟩
  | succ fuel ih =>
    intro st st' h
    rw [floodLoop] at h
    split at h
    · rename_i hq
      injection h with h
      subst h
      exact ⟨le_refl _, fun k hk1 hk2 => absurd hk2 (by omega),
        fun sig2 _ => by simp [floodLoop, hq]⟩
    · rename_i current rest hq
      simp only [] at h
      obtain ⟨time, htime, h⟩ := except_bind_ok h
      obtain ⟨hle1, hint1, hrun1⟩ := fillTick_ok htime
      split at h <;> rename_i htr
      · obtain ⟨hle2, hint2, hrun2⟩ := ih _ _ h
        have hle2' : time ≤ st'.time := hle2
        have hint2' : ∀ k, time ≤ k → k < st'.time → sig k = false := hint2
        refine ⟨le_trans hle1 hle2', fun k hk1 hk2 => ?_, fun sig2 hs2 => ?_⟩
        · by_cases hk : k < time
          · exact hint1 k hk1 hk
          · exact hint2' k (by omega) hk2
        · simp only [floodLoop, hq]
          rw [hrun1 sig2 hs2, except_ok_bind, if_pos htr]
          exact hrun2 sig2 hs2
      · obtain ⟨step, hvn, h⟩ := except_bind_ok h
        obtain ⟨hle2, hint2, hrun2⟩ := ih _ _ h
        have hle2' : time ≤ st'.time := hle2
        have hint2' : ∀ k, time ≤ k → k < st'.time → sig k = false := hint2
        refine ⟨le_trans hle1 hle2', fun k hk1 hk2 => ?_, fun sig2 hs2 => ?_⟩
        · by_cases hk : k < time
          · exact hint1 k hk1 hk
          · exact hint2' k (by omega) hk2
        · simp only [floodLoop, hq]
          rw [hrun1 sig2 hs2, except_ok_bind, if_neg htr, hvn,
            except_ok_bind]
          exact hrun2 sig2 hs2

theorem floodLoop_total (img : ImageData) {t : Int} (h0 : 0 ≤ t)
    (h1 : t ≤ 100) {sig : Sig} (hs : ∀ k, sig k = false) :
    ∀ (fuel : Nat) (st : FillState),
    ∃ st', floodLoop img t sig fuel st = .ok st' := by
  intro fuel
  induction fuel with
  | zero => intro st; exact ⟨st, rfl⟩
  | succ fuel ih =>
    intro st
    rcases hq : st.queue with _ | ⟨current, rest⟩
    · exact ⟨st, by simp [floodLoop, hq]⟩
    · obtain ⟨time, htime⟩ := fillTick_total hs (st.iterationCount + 1) st.time
      by_cases htr :
          isTransparentPixel (getPixel img current.1 current.2) = true
      · simp only [floodLoop, hq, htime, except_ok_bind, htr,
          eq_self_iff_true, if_true]
        exact ih _
      · obtain ⟨step, hvn⟩ := visitNeighbors_total img h0 h1
          (if (st.tempArea ++ [current]).length ≥ st.lastTripleSize * 3 ∧
              0 < st.lastTripleSize
            then (calculateAverageColor img (st.tempArea ++ [current]),
              (st.tempArea ++ [current]).length)
            else if st.lastTripleSize = 0 then (st.avg, 1)
            else (st.avg, st.lastTripleSize)).1
          [ (current.1 - 1, current.2), (current.1 + 1, current.2)
          , (current.1, current.2 - 1), (current.1, current.2 + 1) ]
          rest st.visited st.processedMap
        have htr' : isTransparentPixel (getPixel img current.1 current.2)
            = false := by simpa using htr
        simp only [floodLoop, hq, htime, except_ok_bind, htr',
          Bool.false_eq_true, if_false, hvn]
        exact ih _

theorem visitNeighbors_err (img : ImageData) {t : Int} (h0 : 0 ≤ t)
    (h1 : t ≤ 100) (avg : String) :
    ∀ (ns queue visited : List (Int × Int)) (p : Int × Int → Bool) (e : Err),
    visitNeighbors img t avg ns queue visited p = .error e → False := by
  intro ns
  induction ns with
  | nil =>
    intro queue visited p e h
    rw [visitNeighbors] at h
    exact Except.noConfusion h
  | cons n ns ih =>
    intro queue visited p e h
    rw [visitNeighbors] at h
    split at h
    · exact ih _ _ _ _ h
    · split at h
      · exact ih _ _ _ _ h
      · split at h
        · exact ih _ _ _ _ h
        · simp only [] at h
          split at h
          · exact ih _ _ _ _ h
          · rcases except_bind_err h with herr | ⟨similar, hok, h⟩
            · rw [isColorSimilarHex_valid h0 h1] at herr
              exact Except.noConfusion herr
            · split at h
              · exact ih _ _ _ _ h
              · exact ih _ _ _ _ h

theorem floodLoop_err (img : ImageData) {t : Int} (h0 : 0 ≤ t)
    (h1 : t ≤ 100) (sig : Sig) :
    ∀ (fuel : Nat) (st : FillState) (e : Err),
    floodLoop img t sig fuel st = .error e → e = .cancelled := by
  intro fuel
  induction fuel with
  | zero =>
    intro st e h
    exact Except.noConfusion h
  | succ fuel ih =>
    intro st e h
    rw [floodLoop] at h
    split at h
    · exact Except.noConfusion h
    · rename_i current rest hq
      simp only [] at h
      rcases except_bind_err h with herr | ⟨time, htime, h⟩
      · exact fillTick_err herr
      · split at h
        · exact ih _ _ h
        · rcases except_bind_err h with herr | ⟨step, hvn, h⟩
          · exact absurd herr (fun hh => visitNeighbors_err img h0 h1 _ _ _ _ _ _ hh)
          · exact ih _ _ h

theorem floodLoop_iter (img : ImageData) (t : Int) (sig : Sig) :
    ∀ (fuel : Nat) (st st' : FillState),
    floodLoop img t sig fuel st = .ok st' →
    st'.iterationCount ≤ st.iterationCount + fuel := by
  intro fuel
  induction fuel with
  | zero =>
    intro st st' h
    injection h with h
    subst h
    omega
  | succ fuel ih =>
    intro st st' h
    rw [floodLoop] at h
    split at h
    · injection h with h; subst h; omega
    · rename_i current rest hq
      simp only [] at h
      obtain ⟨time, htime, h⟩ := except_bind_ok h
      split at h
      · have := ih _ _ h
        have h2 : st'.iterationCount ≤ st.iterationCount + 1 + fuel := this
        omega
      · obtain ⟨step, hvn, h⟩ := except_bind_ok h
        have := ih _ _ h
        have h2 : st'.iterationCount ≤ st.iterationCount + 1 + fuel := this
        omega

theorem finalizeArea_tail (img : ImageData) (png : PngEncoder)
    (st : FillState) :
    (finalizeArea img png st).2 =
      (st.processedMap, st.time, st.iterationCount) := by
  unfold finalizeArea
  split
  · rfl
  · simp only []
    split
    · rfl
    · rfl

theorem finalizeArea_some (img : ImageData) (png : PngEncoder)
    (st : FillState) (reg : RawRegion)
    (h : (finalizeArea img png st).1 = some reg) :
    reg.pixels = st.tempArea.filter
      (fun c => decide (10 < alphaOf (getPixel img c.1 c.2))) ∧
    reg.rawMembers = st.tempArea ∧
    reg.color = calculateAverageColor img reg.pixels ∧
    reg.pixelCount = reg.pixels.length ∧
    reg.pixels ≠ [] := by
  unfold finalizeArea at h
  split at h
  · exact Option.noConfusion h
  · simp only [] at h
    split at h <;> rename_i hf
    · exact Option.noConfusion h
    · have hr := Option.some.inj h
      subst hr
      exact ⟨rfl, rfl, rfl, rfl, hf⟩

theorem findSimilarArea_spec (img : ImageData) (t : Int) (png : PngEncoder)
    (sig : Sig) (sx sy : Int) (P : Int × Int → Bool) (τ : Nat)
    (res : Option RawRegion) (P' : Int × Int → Bool) (τ' it : Nat)
    (h : findSimilarArea img t png sig sx sy P τ = .ok (res, P', τ', it)) :
    (∀ c, P c = true → P' c = true) ∧
    (isTransparentPixel (getPixel img sx sy) = false → P' (sx, sy) = true) ∧
    (P (sx, sy) = false → ∀ reg, res = some reg →
      (∀ c ∈ reg.pixels, P c = false ∧ P' c = true) ∧
      reg.pixels = reg.rawMembers ∧
      reg.color = calculateAverageColor img reg.pixels ∧
      reg.pixelCount = reg.pixels.length ∧
      reg.pixels ≠ []) := by
  rw [findSimilarArea] at h
  obtain ⟨time, htime, h⟩ := except_bind_ok h
  simp only [] at h
  split at h
  · -- transparent seed: nothing happens
    rename_i htr
    simp only [Except.ok.injEq, Prod.mk.injEq] at h
    obtain ⟨h1, h2, h3, h4⟩ := h
    subst h1; subst h2
    refine ⟨fun c hc => hc, fun hcon => ?_, ?_⟩
    · rw [htr] at hcon; exact Bool.noConfusion hcon
    · intro hseed reg hreg
      exact Option.noConfusion hreg
  · rename_i htr
    obtain ⟨st, hflood, h⟩ := except_bind_ok h
    injection h with heq
    have htail := finalizeArea_tail img png st
    have h1 : (finalizeArea img png st).1 = res := by rw [heq]
    have h2 : P' = st.processedMap ∧ τ' = st.time ∧ it = st.iterationCount := by
      have := htail.symm.trans (congrArg Prod.snd heq)
      simp only [Prod.mk.injEq] at this
      exact ⟨this.1.symm, this.2.1.symm, this.2.2.symm⟩
    obtain ⟨hP', -, -⟩ := h2
    subst hP'
    have hmono0 : ∀ c, P c = true →
        (fun c => if c = (sx, sy) then true else P c) c = true := by
      intro c hc
      by_cases hcs : c = (sx, sy) <;> simp [hcs, hc]
    have hmono := floodLoop_mono img t sig _ _ _ hflood
    have hPmono : ∀ c, P c = true → st.processedMap c = true := by
      intro c hc
      exact hmono c (hmono0 c hc)
    have hseedP : st.processedMap (sx, sy) = true := by
      apply hmono
      simp
    refine ⟨hPmono, fun _ => hseedP, fun hseed reg hreg => ?_⟩
    have hsome : (finalizeArea img png st).1 = some reg := by
      rw [h1, hreg]
    obtain ⟨hpix, hraw, hcol, hcount, hne⟩ := finalizeArea_some img png st
      reg hsome
    have hInv : FillInv img P st := by
      apply floodLoop_inv img t sig P _ _ _ hflood
      refine ⟨hmono0, ?_, ?_⟩
      · intro c hc
        have hcs : c = (sx, sy) := by simpa using hc
        subst hcs
        exact ⟨hseed, by simp⟩
      · intro c hc
        exact absurd hc (List.not_mem_nil c)
    obtain ⟨hIm, hIq, hIt⟩ := hInv
    have hfilter : st.tempArea.filter
        (fun c => decide (10 < alphaOf (getPixel img c.1 c.2)))
        = st.tempArea := by
      rw [List.filter_eq_self]
      intro c hc
      have := hIt c hc
      unfold isTransparentPixel at this
      simp only [decide_eq_false_iff_not, not_le] at this
      simpa using this
    refine ⟨?_, by rw [hpix, hfilter, hraw], hcol, hcount, hne⟩
    intro c hc
    rw [hpix, hfilter] at hc
    exact hIq c (List.mem_append.2 (Or.inr hc))

theorem findSimilarArea_sig (img : ImageData) (t : Int) (png : PngEncoder)
    (sig : Sig) (sx sy : Int) (P : Int × Int → Bool) (τ : Nat)
    (out : Option RawRegion × (Int × Int → Bool) × Nat × Nat)
    (h : findSimilarArea img t png sig sx sy P τ = .ok out) :
    τ ≤ out.2.2.1 ∧ (∀ k, τ ≤ k → k < out.2.2.1 → sig k = false) ∧
    (∀ sig2 : Sig, (∀ j, sig2 j = false) →
      findSimilarArea img t png sig2 sx sy P τ = .ok out) := by
  rw [findSimilarArea] at h
  obtain ⟨time, htime, h⟩ := except_bind_ok h
  obtain ⟨ht1, hsig1⟩ := checkSignal_ok htime
  subst ht1
  simp only [] at h
  split at h <;> rename_i htr
  · injection h with h
    subst h
    dsimp only
    refine ⟨by omega, fun k hk1 hk2 => ?_, fun sig2 hs2 => ?_⟩
    · have hk : k = τ := by omega
      subst hk
      exact hsig1
    · rw [findSimilarArea, checkSignal_false (hs2 τ), except_ok_bind]
      simp only []
      rw [if_pos htr]
  · obtain ⟨st, hflood, h⟩ := except_bind_ok h
    injection h with h
    subst h
    obtain ⟨hle2, hint2, hrun2⟩ := floodLoop_sig img t sig _ _ _ hflood
    have hle2' : τ + 1 ≤ st.time := hle2
    have hint2' : ∀ k, τ + 1 ≤ k → k < st.time → sig k = false := hint2
    have hτ : (finalizeArea img png st).2.2.1 = st.time := by
      rw [finalizeArea_tail]
    rw [hτ]
    refine ⟨by omega, fun k hk1 hk2 => ?_, fun sig2 hs2 => ?_⟩
    · by_cases hk : k = τ
      · subst hk; exact hsig1
      · exact hint2' k (by omega) hk2
    · rw [findSimilarArea, checkSignal_false (hs2 τ), except_ok_bind]
      simp only []
      rw [if_neg htr, hrun2 sig2 hs2, except_ok_bind]

theorem findSimilarArea_total (img : ImageData) {t : Int} (h0 : 0 ≤ t)
    (h1 : t ≤ 100) (png : PngEncoder) {sig : Sig} (hs : ∀ k, sig k = false)
    (sx sy : Int) (P : Int × Int → Bool) (τ : Nat) :
    ∃ out, findSimilarArea img t png sig sx sy P τ = .ok out ∧
      out.2.2.2 ≤ img.width * img.height := by
  by_cases htr : isTransparentPixel (getPixel img sx sy) = true
  · refine ⟨(none, P, τ + 1, 0), ?_, Nat.zero_le _⟩
    rw [findSimilarArea, checkSignal_false (hs τ), except_ok_bind]
    simp only []
    rw [if_pos htr]
  · obtain ⟨st, hflood⟩ := floodLoop_total img h0 h1 hs
      (img.width * img.height)
      { queue := [(sx, sy)], tempArea := []
      , avg := rgbaToHex (getPixel img sx sy), lastTripleSize := 0
      , minX := sx, maxX := sx, minY := sy, maxY := sy
      , visited := [(sx, sy)]
      , processedMap := fun c => if c = (sx, sy) then true else P c
      , iterationCount := 0, time := τ + 1 }
    have hit : st.iterationCount ≤ 0 + img.width * img.height :=
      floodLoop_iter img t sig _ _ _ hflood
    refine ⟨finalizeArea img png st, ?_, ?_⟩
    · rw [findSimilarArea, checkSignal_false (hs τ), except_ok_bind]
      simp only []
      rw [if_neg htr, hflood, except_ok_bind]
    · have hτ : (finalizeArea img png st).2.2.2 = st.iterationCount := by
        rw [finalizeArea_tail]
      rw [hτ]
      omega

theorem findSimilarArea_err (img : ImageData) {t : Int} (h0 : 0 ≤ t)
    (h1 : t ≤ 100) (png : PngEncoder) (sig : Sig) (sx sy : Int)
    (P : Int × Int → Bool) (τ : Nat) (e : Err)
    (h : findSimilarArea img t png sig sx sy P τ = .error e) :
    e = .cancelled := by
  rw [findSimilarArea] at h
  rcases except_bind_err h with herr | ⟨time, htime, h⟩
  · exact (checkSignal_err herr).1
  · simp only [] at h
    split at h
    · exact Except.noConfusion h
    · rcases except_bind_err h with herr | ⟨st, hflood, h⟩
      · exact floodLoop_err img h0 h1 sig _ _ _ herr
      · exact Except.noConfusion h

theorem colLoop_mono (img : ImageData) (t : Int) (png : PngEncoder)
    (sig : Sig) (y : Int) :
    ∀ (xs : List Int) (st st' : ScanState),
    colLoop img t png sig y xs st = .ok st' →
    ∀ c, st.processedMap c = true → st'.processedMap c = true := by
  intro xs
  induction xs with
  | nil =>
    intro st st' h c hc
    injection h with h
    subst h
    exact hc
  | cons x xs ih =>
    intro st st' h c hc
    rw [colLoop] at h
    split at h
    · exact ih _ _ h c hc
    · split at h
      · exact ih _ _ h c hc
      · obtain ⟨⟨res, P2, τ2, it2⟩, hout, h⟩ := except_bind_ok h
        obtain ⟨hm, -, -⟩ := findSimilarArea_spec img t png sig x y
          st.processedMap st.time res P2 τ2 it2 hout
        exact ih _ _ h c (hm c hc)

theorem colLoop_inv (img : ImageData) (t : Int) (png : PngEncoder)
    (sig : Sig) (y : Int) :
    ∀ (xs : List Int) (st st' : ScanState),
    colLoop img t png sig y xs st = .ok st' →
    ScanInv img st → ScanInv img st' := by
  intro xs
  induction xs with
  | nil =>
    intro st st' h hI
    injection h with h
    subst h
    exact hI
  | cons x xs ih =>
    intro st st' h hI
    rw [colLoop] at h
    split at h
    · exact ih _ _ h hI
    · split at h
      · exact ih _ _ h hI
      · rename_i hP htr
        obtain ⟨⟨res, P2, τ2, it2⟩, hout, h⟩ := except_bind_ok h
        obtain ⟨hm, -, hpart3⟩ := findSimilarArea_spec img t png sig x y
          st.processedMap st.time res P2 τ2 it2 hout
        have hseed : st.processedMap (x, y) = false := by
          simpa using hP
        obtain ⟨hI1, hI2, hI3⟩ := hI
        refine ih _ _ h ⟨?_, ?_, ?_⟩
        · -- all members of accumulated regions are processed
          intro reg hreg c hc
          rcases List.mem_append.1 hreg with hreg | hreg
          · exact hm c (hI1 reg hreg c hc)
          · rcases res with - | newReg
            · exact absurd hreg (by simp)
            · have hregn : reg = newReg := by simpa using hreg
              subst hregn
              obtain ⟨hmem, -, -, -, -⟩ := hpart3 hseed reg rfl
              exact (hmem c hc).2
        · -- pairwise disjointness
          rcases res with - | newReg
          · simpa using hI2
          · rw [List.pairwise_append]
            refine ⟨hI2, by simp, ?_⟩
            intro a ha b hb c hca hcb
            have hbn : b = newReg := by simpa using hb
            subst hbn
            obtain ⟨hmem, -, -, -, -⟩ := hpart3 hseed b rfl
            have h1 : st.processedMap c = true := hI1 a ha c hca
            have h2 : st.processedMap c = false := (hmem c hcb).1
            rw [h1] at h2
            exact Bool.noConfusion h2
        · -- RegionOk for every accumulated region
          intro reg hreg
          rcases List.mem_append.1 hreg with hreg | hreg
          · exact hI3 reg hreg
          · rcases res with - | newReg
            · exact absurd hreg (by simp)
            · have hregn : reg = newReg := by simpa using hreg
              subst hregn
              obtain ⟨-, hpr, hcol, hcount, hne⟩ := hpart3 hseed reg rfl
              exact ⟨hcol, hcount, hpr, hne⟩

theorem colLoop_cover (img : ImageData) (t : Int) (png : PngEncoder)
    (sig : Sig) (y : Int) :
    ∀ (xs : List Int) (st st' : ScanState),
    colLoop img t png sig y xs st = .ok st' →
    ∀ x ∈ xs, isTransparentPixel (getPixel img x y) = false →
      st'.processedMap (x, y) = true := by
  intro xs
  induction xs with
  | nil =>
    intro st st' h x hx
    exact absurd hx (List.not_mem_nil x)
  | cons x0 xs ih =>
    intro st st' h x hx htr
    rw [colLoop] at h
    rcases List.mem_cons.1 hx with hx0 | hxs
    · subst hx0
      split at h
      · rename_i hP
        exact colLoop_mono img t png sig y _ _ _ h _ (by simpa using hP)
      · split at h
        · rename_i htr2
          rw [htr] at htr2
          exact absurd htr2 (by simp)
        · obtain ⟨⟨res, P2, τ2, it2⟩, hout, h⟩ := except_bind_ok h
          obtain ⟨-, hseedmark, -⟩ := findSimilarArea_spec img t png sig x y
            st.processedMap st.time res P2 τ2 it2 hout
          exact colLoop_mono img t png sig y _ _ _ h _ (hseedmark htr)
    · split at h
      · exact ih _ _ h x hxs htr
      · split at h
        · exact ih _ _ h x hxs htr
        · obtain ⟨⟨res, P2, τ2, it2⟩, hout, h⟩ := except_bind_ok h
          exact ih _ _ h x hxs htr

theorem colLoop_sig (img : ImageData) (t : Int) (png : PngEncoder)
    (sig : Sig) (y : Int) :
    ∀ (xs : List Int) (st st' : ScanState),
    colLoop img t png sig y xs st = .ok st' →
    st.time ≤ st'.time ∧
    (∀ k, st.time ≤ k → k < st'.time → sig k = false) ∧
    (∀ sig2 : Sig, (∀ j, sig2 j = false) →
      colLoop img t png sig2 y xs st = .ok st') := by
  intro xs
  induction xs with
  | nil =>
    intro st st' h
    injection h with h
    subst h
    exact ⟨le_refl _, fun k hk1 hk2 => absurd hk2 (by omega),
      fun sig2 _ => rfl⟩
  | cons x xs ih =>
    intro st st' h
    rw [colLoop] at h
    split at h <;> rename_i hP
    · obtain ⟨hle, hint, hrun⟩ := ih _ _ h
      exact ⟨hle, hint, fun sig2 hs2 => by
        rw [colLoop, if_pos hP]
        exact hrun sig2 hs2⟩
    · split at h <;> rename_i htr
      · obtain ⟨hle, hint, hrun⟩ := ih _ _ h
        exact ⟨hle, hint, fun sig2 hs2 => by
          rw [colLoop, if_neg hP, if_pos htr]
          exact hrun sig2 hs2⟩
      · obtain ⟨⟨res, P2, τ2, it2⟩, hout, h⟩ := except_bind_ok h
        obtain ⟨hle1, hint1, hrun1⟩ := findSimilarArea_sig img t png sig x y
          st.processedMap st.time _ hout
        obtain ⟨hle2, hint2, hrun2⟩ := ih _ _ h
        have hle1' : st.time ≤ τ2 := hle1
        have hint1' : ∀ k, st.time ≤ k → k < τ2 → sig k = false := hint1
        have hle2' : τ2 ≤ st'.time := hle2
        have hint2' : ∀ k, τ2 ≤ k → k < st'.time → sig k = false := hint2
        refine ⟨by omega, fun k hk1 hk2 => ?_, fun sig2 hs2 => ?_⟩
        · by_cases hk : k < τ2
          · exact hint1' k hk1 hk
          · exact hint2' k (by omega) hk2
        · rw [colLoop, if_neg hP, if_neg htr, hrun1 sig2 hs2,
            except_ok_bind]
          exact hrun2 sig2 hs2

theorem colLoop_total (img : ImageData) {t : Int} (h0 : 0 ≤ t)
    (h1 : t ≤ 100) (png : PngEncoder) {sig : Sig} (hs : ∀ k, sig k = false)
    (y : Int) :
    ∀ (xs : List Int) (st : ScanState),
    ∃ st', colLoop img t png sig y xs st = .ok st' := by
  intro xs
  induction xs with
  | nil => intro st; exact ⟨st, rfl⟩
  | cons x xs ih =>
    intro st
    by_cases hP : st.processedMap (x, y) = true
    · simp only [colLoop]
      rw [if_pos hP]
      exact ih _
    · by_cases htr : isTransparentPixel (getPixel img x y) = true
      · simp only [colLoop]
        rw [if_neg hP, if_pos htr]
        exact ih _
      · obtain ⟨out, hout, -⟩ := findSimilarArea_total img h0 h1 png hs x y
          st.processedMap st.time
        simp only [colLoop]
        rw [if_neg hP, if_neg htr, hout, except_ok_bind]
        exact ih _

theorem colLoop_err (img : ImageData) {t : Int} (h0 : 0 ≤ t)
    (h1 : t ≤ 100) (png : PngEncoder) (sig : Sig) (y : Int) :
    ∀ (xs : List Int) (st : ScanState) (e : Err),
    colLoop img t png sig y xs st = .error e → e = .cancelled := by
  intro xs
  induction xs with
  | nil =>
    intro st e h
    exact Except.noConfusion h
  | cons x xs ih =>
    intro st e h
    rw [colLoop] at h
    split at h
    · exact ih _ _ h
    · split at h
      · exact ih _ _ h
      · rcases except_bind_err h with herr | ⟨out, hout, h⟩
        · exact findSimilarArea_err img h0 h1 png sig x y
            st.processedMap st.time e herr
        · exact ih _ _ h

theorem rowLoop_mono (img : ImageData) (t : Int) (png : PngEncoder)
    (sig : Sig) :
    ∀ (ys : List Int) (st st' : ScanState),
    rowLoop img t png sig ys st = .ok st' →
    ∀ c, st.processedMap c = true → st'.processedMap c = true := by
  intro ys
  induction ys with
  | nil =>
    intro st st' h c hc
    injection h with h
    subst h
    exact hc
  | cons y ys ih =>
    intro st st' h c hc
    rw [rowLoop] at h
    obtain ⟨time, htime, h⟩ := except_bind_ok h
    obtain ⟨st1, hcol, h⟩ := except_bind_ok h
    have hc1 := colLoop_mono img t png sig y _ _ _ hcol c hc
    exact ih _ _ h c hc1

theorem rowLoop_inv (img : ImageData) (t : Int) (png : PngEncoder)
    (sig : Sig) :
    ∀ (ys : List Int) (st st' : ScanState),
    rowLoop img t png sig ys st = .ok st' →
    ScanInv img st → ScanInv img st' := by
  intro ys
  induction ys with
  | nil =>
    intro st st' h hI
    injection h with h
    subst h
    exact hI
  | cons y ys ih =>
    intro st st' h hI
    rw [rowLoop] at h
    obtain ⟨time, htime, h⟩ := except_bind_ok h
    obtain ⟨st1, hcol, h⟩ := except_bind_ok h
    have hI1 : ScanInv img { st with time := time } := hI
    exact ih _ _ h (colLoop_inv img t png sig y _ _ _ hcol hI1)

theorem rowLoop_cover (img : ImageData) (t : Int) (png : PngEncoder)
    (sig : Sig) :
    ∀ (ys : List Int) (st st' : ScanState),
    rowLoop img t png sig ys st = .ok st' →
    ∀ y ∈ ys, ∀ x ∈ (List.range img.width).map Int.ofNat,
      isTransparentPixel (getPixel img x y) = false →
      st'.processedMap (x, y) = true := by
  intro ys
  induction ys with
  | nil =>
    intro st st' h y hy
    exact absurd hy (List.not_mem_nil y)
  | cons y0 ys ih =>
    intro st st' h y hy x hx htr
    rw [rowLoop] at h
    obtain ⟨time, htime, h2⟩ := except_bind_ok h
    obtain ⟨st1, hcol, h3⟩ := except_bind_ok h2
    rcases List.mem_cons.1 hy with hy0 | hys
    · subst hy0
      have h1 := colLoop_cover img t png sig y _ _ _ hcol x hx htr
      exact rowLoop_mono img t png sig _ _ _ h3 _ h1
    · exact ih _ _ h3 y hys x hx htr

theorem rowLoop_sig (img : ImageData) (t : Int) (png : PngEncoder)
    (sig : Sig) :
    ∀ (ys : List Int) (st st' : ScanState),
    rowLoop img t png sig ys st = .ok st' →
    st.time ≤ st'.time ∧
    (∀ k, st.time ≤ k → k < st'.time → sig k = false) ∧
    (∀ sig2 : Sig, (∀ j, sig2 j = false) →
      rowLoop img t png sig2 ys st = .ok st') := by
  intro ys
  induction ys with
  | nil =>
    intro st st' h
    injection h with h
    subst h
    exact ⟨le_refl _, fun k hk1 hk2 => absurd hk2 (by omega),
      fun sig2 _ => rfl⟩
  | cons y ys ih =>
    intro st st' h
    rw [rowLoop] at h
    obtain ⟨time, htime, h⟩ := except_bind_ok h
    obtain ⟨ht1, hsig1⟩ := checkSignal_ok htime
    subst ht1
    obtain ⟨st1, hcol, h⟩ := except_bind_ok h
    obtain ⟨hle1, hint1, hrun1⟩ := colLoop_sig img t png sig y _ _ _ hcol
    obtain ⟨hle2, hint2, hrun2⟩ := ih _ _ h
    have hle1' : st.time + 1 ≤ st1.time := hle1
    have hint1' : ∀ k, st.time + 1 ≤ k → k < st1.time → sig k = false := hint1
    refine ⟨by omega, fun k hk1 hk2 => ?_, fun sig2 hs2 => ?_⟩
    · by_cases hk0 : k = st.time
      · subst hk0; exact hsig1
      · by_cases hk : k < st1.time
        · exact hint1' k (by omega) hk
        · exact hint2 k (by omega) hk2
    · rw [rowLoop, checkSignal_false (hs2 st.time), except_ok_bind,
        hrun1 sig2 hs2, except_ok_bind]
      exact hrun2 sig2 hs2

theorem rowLoop_total (img : ImageData) {t : Int} (h0 : 0 ≤ t)
    (h1 : t ≤ 100) (png : PngEncoder) {sig : Sig} (hs : ∀ k, sig k = false) :
    ∀ (ys : List Int) (st : ScanState),
    ∃ st', rowLoop img t png sig ys st = .ok st' := by
  intro ys
  induction ys with
  | nil => intro st; exact ⟨st, rfl⟩
  | cons y ys ih =>
    intro st
    obtain ⟨st1, hcol⟩ := colLoop_total img h0 h1 png hs y
      ((List.range img.width).map Int.ofNat) { st with time := st.time + 1 }
    obtain ⟨st', hrow⟩ := ih st1
    refine ⟨st', ?_⟩
    rw [rowLoop, checkSignal_false (hs st.time), except_ok_bind, hcol,
      except_ok_bind]
    exact hrow

theorem rowLoop_err (img : ImageData) {t : Int} (h0 : 0 ≤ t)
    (h1 : t ≤ 100) (png : PngEncoder) (sig : Sig) :
    ∀ (ys : List Int) (st : ScanState) (e : Err),
    rowLoop img t png sig ys st = .error e → e = .cancelled := by
  intro ys
  induction ys with
  | nil =>
    intro st e h
    exact Except.noConfusion h
  | cons y ys ih =>
    intro st e h
    rw [rowLoop] at h
    rcases except_bind_err h with herr | ⟨time, htime, h⟩
    · exact (checkSignal_err herr).1
    · rcases except_bind_err h with herr | ⟨st1, hcol, h⟩
      · exact colLoop_err img h0 h1 png sig y _ _ _ herr
      · exact ih _ _ h

theorem processScan_spec (img : ImageData) (t : Int) (png : PngEncoder)
    (sig : Sig) (results : List RawRegion) (P : Int × Int → Bool) (τ : Nat)
    (h : processScan img t png sig = .ok (results, P, τ)) :
    List.Pairwise pixelsDisjoint results ∧
    (∀ reg ∈ results, RegionOk img reg) ∧
    (∀ reg ∈ results, ∀ c ∈ reg.pixels, P c = true) ∧
    (∀ x y : Int, 0 ≤ x → x < (img.width : Int) → 0 ≤ y →
      y < (img.height : Int) →
      isTransparentPixel (getPixel img x y) = false → P (x, y) = true) := by
  rw [processScan] at h
  obtain ⟨t1, ht1, h⟩ := except_bind_ok h
  obtain ⟨t2, ht2, h⟩ := except_bind_ok h
  obtain ⟨st, hrow, h⟩ := except_bind_ok h
  obtain ⟨t3, ht3, h⟩ := except_bind_ok h
  simp only [Except.ok.injEq, Prod.mk.injEq] at h
  obtain ⟨hres, hP, hτ⟩ := h
  subst hres; subst hP
  have hInv : ScanInv img st := by
    apply rowLoop_inv img t png sig _ _ _ hrow
    exact ⟨fun reg hreg => absurd hreg (List.not_mem_nil reg),
      List.Pairwise.nil,
      fun reg hreg => absurd hreg (List.not_mem_nil reg)⟩
  obtain ⟨hI1, hI2, hI3⟩ := hInv
  refine ⟨hI2, hI3, hI1, ?_⟩
  intro x y hx0 hx1 hy0 hy1 htr
  have hcov := rowLoop_cover img t png sig _ _ _ hrow y ?_ x ?_ htr
  · exact hcov
  · simp only [List.mem_map]
    exact ⟨y.toNat, List.mem_range.2 (by omega), Int.toNat_of_nonneg hy0⟩
  · simp only [List.mem_map]
    exact ⟨x.toNat, List.mem_range.2 (by omega), Int.toNat_of_nonneg hx0⟩

theorem processScan_sig (img : ImageData) (t : Int) (png : PngEncoder)
    (sig : Sig) (out : List RawRegion × (Int × Int → Bool) × Nat)
    (h : processScan img t png sig = .ok out) :
    (∀ k, k < out.2.2 → sig k = false) ∧
    (∀ sig2 : Sig, (∀ j, sig2 j = false) →
      processScan img t png sig2 = .ok out) := by
  rw [processScan] at h
  obtain ⟨t1, ht1, h⟩ := except_bind_ok h
  obtain ⟨ht1e, hsig0⟩ := checkSignal_ok ht1
  subst ht1e
  obtain ⟨t2, ht2, h⟩ := except_bind_ok h
  obtain ⟨ht2e, hsig1⟩ := checkSignal_ok ht2
  subst ht2e
  obtain ⟨st, hrow, h⟩ := except_bind_ok h
  obtain ⟨hle, hint, hrun⟩ := rowLoop_sig img t png sig _ _ _ hrow
  have hle' : 0 + 1 + 1 ≤ st.time := hle
  have hint' : ∀ k, 0 + 1 + 1 ≤ k → k < st.time → sig k = false := hint
  obtain ⟨t3, ht3, h⟩ := except_bind_ok h
  obtain ⟨ht3e, hsig2⟩ := checkSignal_ok ht3
  subst ht3e
  simp only [Except.ok.injEq] at h
  subst h
  dsimp only
  constructor
  · intro k hk
    by_cases hk0 : k = 0
    · subst hk0; exact hsig0
    · by_cases hk1 : k = 1
      · subst hk1; exact hsig1
      · by_cases hkst : k < st.time
        · exact hint' k (by omega) hkst
        · have : k = st.time := by omega
          subst this
          exact hsig2
  · intro sig2 hs2
    rw [processScan, checkSignal_false (hs2 0), except_ok_bind,
      checkSignal_false (hs2 1), except_ok_bind]
    have hrow2 := hrun sig2 hs2
    rw [hrow2, except_ok_bind, checkSignal_false (hs2 st.time),
      except_ok_bind]

theorem processScan_total (img : ImageData) {t : Int} (h0 : 0 ≤ t)
    (h1 : t ≤ 100) (png : PngEncoder) {sig : Sig}
    (hs : ∀ k, sig k = false) :
    ∃ out, processScan img t png sig = .ok out := by
  obtain ⟨st, hrow⟩ := rowLoop_total img h0 h1 png hs
    ((List.range img.height).map Int.ofNat)
    { processedMap := fun _ => false, results := [], time := 2 }
  refine ⟨(st.results, st.processedMap, st.time + 1), ?_⟩
  rw [processScan, checkSignal_false (hs 0), except_ok_bind,
    checkSignal_false (hs 1), except_ok_bind, hrow, except_ok_bind,
    checkSignal_false (hs st.time), except_ok_bind]

theorem processScan_err (img : ImageData) {t : Int} (h0 : 0 ≤ t)
    (h1 : t ≤ 100) (png : PngEncoder) (sig : Sig) (e : Err)
    (h : processScan img t png sig = .error e) : e = .cancelled := by
  rw [processScan] at h
  rcases except_bind_err h with herr | ⟨t1, ht1, h⟩
  · exact (checkSignal_err herr).1
  · rcases except_bind_err h with herr | ⟨t2, ht2, h⟩
    · exact (checkSignal_err herr).1
    · rcases except_bind_err h with herr | ⟨st, hrow, h⟩
      · exact rowLoop_err img h0 h1 png sig _ _ _ herr
      · rcases except_bind_err h with herr | ⟨t3, ht3, h⟩
        · exact (checkSignal_err herr).1
        · exact Except.noConfusion h

theorem getD_byte (l : List Nat) (hl : ∀ v ∈ l, v ≤ 255) :
    ∀ i, l.getD i 0 ≤ 255 := by
  induction l with
  | nil => intro i; simp [List.getD]
  | cons a l ih =>
    intro i
    cases i with
    | zero => exact hl a (List.mem_cons_self a l)
    | succ i =>
      simp only [List.getD_cons_succ]
      exact ih (fun v hv => hl v (List.mem_cons_of_mem a hv)) i

theorem getPixel_bytes (img : ImageData) (hwf : img.WF) (x y : Int) :
    (getPixel img x y).1 ≤ 255 ∧ (getPixel img x y).2.1 ≤ 255 ∧
    (getPixel img x y).2.2.1 ≤ 255 := by
  unfold getPixel
  exact ⟨getD_byte img.data hwf.2 _, getD_byte img.data hwf.2 _,
    getD_byte img.data hwf.2 _⟩

theorem avg_fold (img : ImageData) :
    ∀ (pixels : List (Int × Int)) (acc : Nat × Nat × Nat),
    pixels.foldl
      (fun (acc : Nat × Nat × Nat) c =>
        let px := getPixel img c.1 c.2
        (acc.1 + px.1, acc.2.1 + px.2.1, acc.2.2 + px.2.2.1)) acc =
    (acc.1 + (pixels.map (fun c => (getPixel img c.1 c.2).1)).sum,
     acc.2.1 + (pixels.map (fun c => (getPixel img c.1 c.2).2.1)).sum,
     acc.2.2 + (pixels.map (fun c => (getPixel img c.1 c.2).2.2.1)).sum) := by
  intro pixels
  induction pixels with
  | nil => intro acc; simp
  | cons p ps ih =>
    intro acc
    simp only [List.foldl_cons, List.map_cons, List.sum_cons, ih,
      Prod.mk.injEq]
    refine ⟨by omega, by omega, by omega⟩

theorem roundDiv_spec (p q : Nat) : roundDiv p q = specRound ((p : Rat) / q) := by
  unfold roundDiv specRound
  rcases Nat.eq_zero_or_pos q with hq | hq
  · subst hq
    norm_num
    rw [show ((1 : Rat) / 2) = (2 : Rat)⁻¹ by norm_num]
    rw [Nat.floor_eq_zero.2 (by norm_num)]
  · have hcast : (p : Rat) / q + 1 / 2 =
        ((2 * p + q : Nat) : Rat) / ((2 * q : Nat) : Rat) := by
      have hq' : (q : Rat) ≠ 0 := by positivity
      push_cast
      field_simp
      ring
    rw [hcast, Nat.floor_div_eq_div]

theorem roundDiv_le (p q : Nat) (h : p ≤ 255 * q) : roundDiv p q ≤ 255 := by
  unfold roundDiv
  rcases Nat.eq_zero_or_pos q with hq | hq
  · subst hq; simp
  · have hlt : (2 * p + q) / (2 * q) < 256 :=
      (Nat.div_lt_iff_lt_mul (by omega)).2 (by omega)
    omega

set_option maxRecDepth 100000 in
theorem toHexByte_spec : ∀ n, n ≤ 255 → toHexByte n = specHexByte n := by
  decide

theorem calculateAverageColor_eq_spec (img : ImageData) (hwf : img.WF)
    (pixels : List (Int × Int)) :
    calculateAverageColor img pixels = specAverageColor img pixels := by
  unfold calculateAverageColor specAverageColor
  simp only [avg_fold, Nat.zero_add]
  have hsum : ∀ f : Int × Int → Nat, (∀ c, f c ≤ 255) →
      (pixels.map f).sum ≤ 255 * pixels.length := by
    intro f hf
    have := List.sum_le_card_nsmul (pixels.map f) 255
      (fun x hx => by
        obtain ⟨c, -, hc⟩ := List.mem_map.1 hx
        rw [← hc]; exact hf c)
    simpa [smul_eq_mul, Nat.mul_comm] using this
  have hR := hsum (fun c => (getPixel img c.1 c.2).1)
    (fun c => (getPixel_bytes img hwf c.1 c.2).1)
  have hG := hsum (fun c => (getPixel img c.1 c.2).2.1)
    (fun c => (getPixel_bytes img hwf c.1 c.2).2.1)
  have hB := hsum (fun c => (getPixel img c.1 c.2).2.2.1)
    (fun c => (getPixel_bytes img hwf c.1 c.2).2.2)
  unfold rgbToHex
  rw [toHexByte_spec _ (roundDiv_le _ _ hR),
    toHexByte_spec _ (roundDiv_le _ _ hG),
    toHexByte_spec _ (roundDiv_le _ _ hB),
    roundDiv_spec, roundDiv_spec, roundDiv_spec]

theorem checkSignal_true {sig : Sig} {t : Nat} (h : sig t = true) :
    checkSignal sig t = .error .cancelled := by
  unfold checkSignal
  simp [h]

theorem opaque_not_transparent {p : RGBA} (h : 10 < alphaOf p) :
    isTransparentPixel p = false := by
  unfold isTransparentPixel
  simp only [decide_eq_false_iff_not, not_le]
  exact h

theorem scanRegions_pairwise (img : ImageData) (t : Int) (png : PngEncoder)
    (sig : Sig) :
    List.Pairwise pixelsDisjoint (scanRegions (processScan img t png sig)) := by
  rcases h : processScan img t png sig with e | out
  · simp [scanRegions, h]
  · rcases out with ⟨results, P, τ⟩
    have := (processScan_spec img t png sig results P τ h).1
    simpa [scanRegions, h] using this

theorem scanRegions_regionOk (img : ImageData) (t : Int) (png : PngEncoder)
    (sig : Sig) (reg : RawRegion)
    (hreg : reg ∈ scanRegions (processScan img t png sig)) :
    RegionOk img reg := by
  rcases h : processScan img t png sig with e | out
  · simp only [scanRegions, h] at hreg
    exact absurd hreg (List.not_mem_nil reg)
  · rcases out with ⟨results, P, τ⟩
    have hmem : reg ∈ results := by
      simpa [scanRegions, h] using hreg
    exact (processScan_spec img t png sig results P τ h).2.1 reg hmem

/-- C2: for every pixel buffer and every threshold, no two distinct Region
Results produced by the scan of `processImageColors` (before the area
filter) contain the same pixel coordinate: the raw member lists are
pairwise disjoint, so every pixel belongs to at most one of them. -/
theorem C2_disjointness (img : ImageData) (t : Int) (png : PngEncoder)
    (sig : Sig) :
    List.Pairwise pixelsDisjoint (scanRegions (processScan img t png sig)) :=
  scanRegions_pairwise img t png sig

/-- C8: on the 2x2 buffer with channels 4 whose four pixels are all
(255,0,0,255), `processImageColors` at threshold 15 with
minimalSquarePixelArea 1 returns exactly one Region Result, with color
"#ff0000" and pixelCount 4. -/
theorem C8_scenario_b :
    (publicRegions (processImageColors red4 15 1 sigNever png0)).map
      (fun r => (r.color, r.pixelCount)) = [("#ff0000", 4)] := by
  decide

/-- C6: a call to `processImageColors` with a threshold strictly below 0 or
strictly above 100 fails with the InvalidArgument condition; the result is
the same for every data array (the theorem quantifies over all buffers,
signals and encoders), so the failure happens before any pixel is read. -/
theorem C6_invalid_threshold (img : ImageData) (t : Int) (minA : Nat)
    (sig : Sig) (png : PngEncoder) (h : t < 0 ∨ 100 < t) :
    processImageColors img t minA sig png = .error .invalidArgument := by
  rw [processImageColors, if_pos h]

/-- Witness for C6 at the concrete threshold 101. -/
theorem C6_invalid_threshold_witness :
    processImageColors red4 101 200 sigNever png0 =
      .error .invalidArgument :=
  C6_invalid_threshold red4 101 200 sigNever png0 (Or.inr (by decide))

/-- C9 counterexample: the claim asserts `isSimilar(c,c,t)` returns true for
every threshold t at least 0, but at t = 101 (which is at least 0) the code
throws InvalidArgument instead of returning true. -/
theorem C9_reflexivity_counterexample :
    (0 : Int) ≤ 101 ∧
    isColorSimilarHex "#808080" "#808080" 101 ≠ .ok true ∧
    isColorSimilarHex "#808080" "#808080" 101 =
      .error .invalidArgument := by
  decide

/-- C9 amended: for every hex string c and every threshold t in [0,100],
`isColorSimilarHex c c t` returns true (the distance of a color to itself
is 0, which every valid threshold admits). -/
theorem C9_reflexivity_amended (c : String) (t : Int) (h0 : 0 ≤ t)
    (h1 : t ≤ 100) : isColorSimilarHex c c t = .ok true := by
  rw [isColorSimilarHex_valid h0 h1]
  have hd : colorDistSq c c = 0 := by
    unfold colorDistSq
    ring
  rw [hd]
  have hpos : (0 : Int) ≤ t ^ 2 * 195075 := by positivity
  simp [hpos]

/-- Witness for the amended C9 at a concrete color and threshold. -/
theorem C9_reflexivity_amended_witness :
    isColorSimilarHex "#3a7bd5" "#3a7bd5" 50 = .ok true :=
  C9_reflexivity_amended "#3a7bd5" 50 (by decide) (by decide)

/-- C3 counterexample: on the 6x1 grayscale strip `gray6` (values 0, 30, 60,
85, 35, 80, all opaque), raising the threshold from 10 to 15 raises the
number of emitted regions from 2 to 3 (the adaptive average drifts and the
rejected-neighbor rule permanently discards pixels), refuting the claim
that a larger threshold never yields more regions. -/
theorem C3_monotonicity_counterexample :
    (10 : Int) ≤ 15 ∧
    (publicRegions (processImageColors gray6 10 1 sigNever png0)).length
      = 2 ∧
    (publicRegions (processImageColors gray6 15 1 sigNever png0)).length
      = 3 ∧
    ¬((publicRegions (processImageColors gray6 15 1 sigNever png0)).length
      ≤ (publicRegions (processImageColors gray6 10 1 sigNever png0)).length)
    := by
  decide

/-- C3 amended: monotonicity holds for the similarity primitive itself, not
for the region count: for fixed colors, a pair similar at threshold t1 is
similar at any larger valid threshold t2. -/
theorem C3_monotonicity_amended (c1 c2 : String) (t1 t2 : Int)
    (h0 : 0 ≤ t1) (h12 : t1 ≤ t2) (h2 : t2 ≤ 100)
    (h : isColorSimilarHex c1 c2 t1 = .ok true) :
    isColorSimilarHex c1 c2 t2 = .ok true := by
  rw [isColorSimilarHex_valid h0 (by omega)] at h
  rw [isColorSimilarHex_valid (by omega) h2]
  injection h with h
  have hle : colorDistSq c1 c2 * 10000 ≤ t1 ^ 2 * 195075 := of_decide_eq_true h
  have ht : t1 ^ 2 ≤ t2 ^ 2 := by
    exact pow_le_pow_left₀ h0 h12 2
  have : colorDistSq c1 c2 * 10000 ≤ t2 ^ 2 * 195075 := by nlinarith
  simp [this]

/-- Witness for the amended C3 at concrete colors and thresholds. -/
theorem C3_monotonicity_amended_witness :
    isColorSimilarHex "#000000" "#0a0a0a" 20 = .ok true :=
  C3_monotonicity_amended "#000000" "#0a0a0a" 10 20 (by decide) (by decide)
    (by decide) (by decide)

/-- C4: every Region Result emitted by the scan reports as its color exactly
the arithmetic mean of the R, G, B channels over its opacity-filtered
member pixels, rounded to nearest integer per channel and formatted as a
six-hex-digit lowercase string with a leading '#' (the spec-side formula
`specAverageColor`), and reports as pixelCount the length of that member
list — independently of how the running average was recomputed during
growth. -/
theorem C4_final_color (img : ImageData) (t : Int) (png : PngEncoder)
    (sig : Sig) (hwf : img.WF) (i : Nat)
    (hi : i < (scanRegions (processScan img t png sig)).length) :
    ((scanRegions (processScan img t png sig)).get ⟨i, hi⟩).color =
      specAverageColor img
        ((scanRegions (processScan img t png sig)).get ⟨i, hi⟩).pixels ∧
    ((scanRegions (processScan img t png sig)).get ⟨i, hi⟩).pixelCount =
      ((scanRegions (processScan img t png sig)).get ⟨i, hi⟩).pixels.length
    := by
  have hmem : (scanRegions (processScan img t png sig)).get ⟨i, hi⟩ ∈
      scanRegions (processScan img t png sig) := List.get_mem _ _ hi
  obtain ⟨hcol, hcount, hpr, hne⟩ :=
    scanRegions_regionOk img t png sig _ hmem
  refine ⟨?_, hcount⟩
  rw [hcol]
  exact calculateAverageColor_eq_spec img hwf _

/-- Witness for C4 on the solid red 2x2 buffer, first emitted region. -/
theorem C4_final_color_witness :
    ((scanRegions (processScan red4 15 png0 sigNever)).get
        ⟨0, by decide⟩).color =
      specAverageColor red4
        ((scanRegions (processScan red4 15 png0 sigNever)).get
          ⟨0, by decide⟩).pixels ∧
    ((scanRegions (processScan red4 15 png0 sigNever)).get
        ⟨0, by decide⟩).pixelCount =
      ((scanRegions (processScan red4 15 png0 sigNever)).get
        ⟨0, by decide⟩).pixels.length :=
  C4_final_color red4 15 png0 sigNever (by decide) 0 (by decide)

/-- C7: under any valid threshold and an untriggered signal, every per-seed
flood fill returns successfully (never an error, never an endless loop: the
loop is fuel-bounded by construction) and its final iteration counter is at
most width times height; when the budget is exhausted the loop simply stops
and `finalizeArea` still emits the members accumulated so far, so hitting
the cap is non-fatal and the outer scan continues. -/
theorem C7_iteration_cap (img : ImageData) (t : Int) (png : PngEncoder)
    (sig : Sig) (sx sy : Int) (P : Int × Int → Bool) (τ : Nat)
    (h0 : 0 ≤ t) (h1 : t ≤ 100) (hs : ∀ k, sig k = false) :
    ∃ out, findSimilarArea img t png sig sx sy P τ = .ok out ∧
      out.2.2.2 ≤ img.width * img.height :=
  findSimilarArea_total img h0 h1 png hs sx sy P τ

/-- Witness for C7 on the solid red 2x2 buffer seeded at the origin. -/
theorem C7_iteration_cap_witness :
    ∃ out, findSimilarArea red4 15 png0 sigNever 0 0 (fun _ => false) 0 =
      .ok out ∧ out.2.2.2 ≤ red4.width * red4.height :=
  C7_iteration_cap red4 15 png0 sigNever 0 0 (fun _ => false) 0 (by decide)
    (by decide) (fun k => rfl)

/-- C5 counterexample: a call whose cancellation signal is already triggered
at call time but whose threshold is out of range fails with InvalidArgument,
not with the Cancelled condition the claim promises for every
already-triggered call (the source validates the threshold before its first
`throwIfAborted`). -/
theorem C5_cancellation_counterexample :
    sigAlways 0 = true ∧
    processImageColors red4 101 1 sigAlways png0 =
      .error .invalidArgument := by
  constructor
  · rfl
  · decide

/-- C5 amended: for every call with a threshold inside [0,100]: a signal
already triggered at call time makes the call fail with the Cancelled
condition; any failure of such a call is the Cancelled condition; and a
successful call returns exactly the result of the never-cancelled run —
never a partial list — with no consulted checkpoint having observed a
triggered signal (ticks are consulted consecutively from 0 up to the
returned final tick). -/
theorem C5_cancellation_amended (img : ImageData) (t : Int) (minA : Nat)
    (sig : Sig) (png : PngEncoder) (h0 : 0 ≤ t) (h1 : t ≤ 100) :
    (sig 0 = true →
      processImageColors img t minA sig png = .error .cancelled) ∧
    (∀ e, processImageColors img t minA sig png = .error e →
      e = .cancelled) ∧
    (∀ out, processImageColors img t minA sig png = .ok out →
      processImageColors img t minA sigNever png = .ok out ∧
      ∀ k, k < out.2 → sig k = false) := by
  have hvalid : ¬(t < 0 ∨ t > 100) := by omega
  refine ⟨?_, ?_, ?_⟩
  · intro ha
    rw [processImageColors, if_neg hvalid]
    have hscan : processScan img t png sig = .error .cancelled := by
      rw [processScan, checkSignal_true ha]
      rfl
    rw [hscan]
    rfl
  · intro e he
    rw [processImageColors, if_neg hvalid] at he
    rcases except_bind_err he with herr | ⟨scanOut, hscan, he2⟩
    · exact processScan_err img h0 h1 png sig e herr
    · exact Except.noConfusion he2
  · intro out hok
    rw [processImageColors, if_neg hvalid] at hok
    obtain ⟨scanOut, hscan, hok2⟩ := except_bind_ok hok
    obtain ⟨hint, hrun⟩ := processScan_sig img t png sig scanOut hscan
    injection hok2 with hh
    constructor
    · rw [processImageColors, if_neg hvalid,
        hrun sigNever (fun j => rfl), except_ok_bind]
      rw [← hh]
    · intro k hk
      apply hint
      rw [← hh] at hk
      exact hk

/-- Witness for the amended C5 on the red 2x2 buffer with the
always-triggered signal. -/
theorem C5_cancellation_amended_witness :
    (sigAlways 0 = true →
      processImageColors red4 15 1 sigAlways png0 = .error .cancelled) ∧
    (∀ e, processImageColors red4 15 1 sigAlways png0 = .error e →
      e = .cancelled) ∧
    (∀ out, processImageColors red4 15 1 sigAlways png0 = .ok out →
      processImageColors red4 15 1 sigNever png0 = .ok out ∧
      ∀ k, k < out.2 → sigAlways k = false) :=
  C5_cancellation_amended red4 15 1 sigAlways png0 (by decide) (by decide)

/-- C1 counterexample: on the 2x1 buffer (opaque black, opaque white) at
threshold 0, the scan succeeds and emits exactly one region, yet the fully
opaque pixel (1,0) (alpha 255) appears in no region's member list and not
even in any pre-opacity-filter member list, so it was not excluded by the
opacity-floor re-filter: it was excluded by the similarity-rejection rule,
a reason the claim does not admit. -/
theorem C1_coverage_counterexample :
    alphaOf (getPixel blackWhite 1 0) = 255 ∧
    (scanRegions (processScan blackWhite 0 png0 sigNever)).length = 1 ∧
    (∀ reg ∈ scanRegions (processScan blackWhite 0 png0 sigNever),
      ((1 : Int), (0 : Int)) ∉ reg.pixels ∧
      ((1 : Int), (0 : Int)) ∉ reg.rawMembers) := by
  decide

/-- C1 amended: for a valid threshold and an untriggered signal, every
in-bounds pixel with alpha above 10 either lies in exactly one emitted
region's pre-area-filter member list, or is marked visited by the end of
the scan while lying in no member list (rejected by the similarity rule of
step 5); moreover the opacity-floor re-filter of step 6 never excludes any
pixel (every emitted region's filtered member list equals its unfiltered
one). -/
theorem C1_coverage_amended (img : ImageData) (t : Int) (png : PngEncoder)
    (sig : Sig) (x y : Int) (h0 : 0 ≤ t) (h1 : t ≤ 100)
    (hs : ∀ k, sig k = false) (hx0 : 0 ≤ x) (hx1 : x < (img.width : Int))
    (hy0 : 0 ≤ y) (hy1 : y < (img.height : Int))
    (ha : 10 < alphaOf (getPixel img x y)) :
    ((∃! i : Fin (scanRegions (processScan img t png sig)).length,
      (x, y) ∈ ((scanRegions (processScan img t png sig)).get i).pixels) ∨
    (scanProcessed (processScan img t png sig) (x, y) = true ∧
      ∀ reg ∈ scanRegions (processScan img t png sig),
        (x, y) ∉ reg.pixels)) ∧
    (∀ reg ∈ scanRegions (processScan img t png sig),
      reg.pixels = reg.rawMembers) := by
  constructor
  · rcases h : processScan img t png sig with e | out
    · obtain ⟨out2, hout2⟩ := processScan_total img h0 h1 png hs
      rw [h] at hout2
      exact Except.noConfusion hout2
    · rcases out with ⟨results, P, τ⟩
      obtain ⟨hpair, hok, hmemP, hcov⟩ :=
        processScan_spec img t png sig results P τ h
      have hP : P (x, y) = true :=
        hcov x y hx0 hx1 hy0 hy1 (opaque_not_transparent ha)
      simp only [scanRegions, scanProcessed, h]
      by_cases hin : ∃ reg ∈ results, (x, y) ∈ reg.pixels
      · left
        obtain ⟨reg, hreg, hpx⟩ := hin
        obtain ⟨i, hi⟩ := List.mem_iff_get.1 hreg
        have hpg := List.pairwise_iff_get.1 hpair
        refine ⟨i, ?_, ?_⟩
        · show (x, y) ∈ (results.get i).pixels
          rw [hi]; exact hpx
        intro j hj
        rcases lt_trichotomy j i with hlt | heq | hgt
        · exact (hpg j i hlt (x, y) hj (by rw [hi]; exact hpx)).elim
        · exact heq
        · exact (hpg i j hgt (x, y) (by rw [hi]; exact hpx) hj).elim
      · right
        exact ⟨hP, fun reg hreg hpx => hin ⟨reg, hreg, hpx⟩⟩
  · intro reg hreg
    exact (scanRegions_regionOk img t png sig reg hreg).2.2.1

/-- Witness for the amended C1 at the top-left pixel of the solid red
buffer. -/
theorem C1_coverage_amended_witness :
    ((∃! i : Fin (scanRegions (processScan red4 15 png0 sigNever)).length,
      ((0 : Int), (0 : Int)) ∈
        ((scanRegions (processScan red4 15 png0 sigNever)).get i).pixels) ∨
    (scanProcessed (processScan red4 15 png0 sigNever) (0, 0) = true ∧
      ∀ reg ∈ scanRegions (processScan red4 15 png0 sigNever),
        ((0 : Int), (0 : Int)) ∉ reg.pixels)) ∧
    (∀ reg ∈ scanRegions (processScan red4 15 png0 sigNever),
      reg.pixels = reg.rawMembers) :=
  C1_coverage_amended red4 15 png0 sigNever 0 0 (by decide) (by decide)
    (fun k => rfl) (by decide) (by decide) (by decide) (by decide)
    (by decide)

theorem rowLoop_width_empty (img : ImageData) (hw : img.width = 0)
    (t : Int) (png : PngEncoder) {sig : Sig} (hs : ∀ k, sig k = false) :
    ∀ (ys : List Int) (st : ScanState),
    rowLoop img t png sig ys st =
      .ok { st with time := st.time + ys.length } := by
  intro ys
  induction ys with
  | nil =>
    intro st
    rcases st with ⟨pm, res, tm⟩
    simp [rowLoop]
  | cons y ys ih =>
    intro st
    rcases st with ⟨pm, res, tm⟩
    rw [rowLoop, checkSignal_false (hs tm), except_ok_bind]
    simp only [hw, List.range_zero, List.map_nil]
    rw [show colLoop img t png sig y []
        { processedMap := pm, results := res, time := tm + 1 } =
        .ok { processedMap := pm, results := res, time := tm + 1 }
      from rfl, except_ok_bind, ih]
    simp only [List.length_cons]
    congr 1
    simp only [ScanState.mk.injEq, true_and]
    omega

/-- C10: for every degenerate buffer with zero width or zero height (and
the correspondingly empty data array), a valid threshold and an untriggered
signal, `processImageColors` succeeds and returns the empty list of Region
Results rather than failing. -/
theorem C10_empty_image (w h ch : Nat) (t : Int) (minA : Nat) (sig : Sig)
    (png : PngEncoder) (hwh : w = 0 ∨ h = 0) (h0 : 0 ≤ t) (h1 : t ≤ 100)
    (hs : ∀ k, sig k = false) :
    processImageColors { width := w, height := h, channels := ch, data := [] }
      t minA sig png = .ok ([], h + 3) := by
  have hvalid : ¬(t < 0 ∨ t > 100) := by omega
  have hscan : processScan
      { width := w, height := h, channels := ch, data := [] } t png sig =
      .ok ([], fun _ => false, h + 3) := by
    rw [processScan, checkSignal_false (hs 0), except_ok_bind,
      checkSignal_false (hs 1), except_ok_bind]
    rcases hwh with hw | hh
    · rw [rowLoop_width_empty _ hw t png hs, except_ok_bind]
      simp only [List.length_map, List.length_range]
      rw [checkSignal_false (hs (2 + h)), except_ok_bind]
      have : 2 + h + 1 = h + 3 := by omega
      rw [this]
    · subst hh
      simp only [List.range_zero, List.map_nil]
      rw [show rowLoop { width := w, height := 0, channels := ch, data := [] }
          t png sig []
          { processedMap := fun _ => false, results := [], time := 2 } =
          .ok { processedMap := fun _ => false, results := [], time := 2 }
        from rfl, except_ok_bind, checkSignal_false (hs 2), except_ok_bind]
  rw [processImageColors, if_neg hvalid, hscan, except_ok_bind]
  simp

/-- Witness for C10 on the 0x0 four-channel buffer. -/
theorem C10_empty_image_witness :
    processImageColors { width := 0, height := 0, channels := 4, data := [] }
      15 200 sigNever png0 = .ok ([], 0 + 3) :=
  C10_empty_image 0 0 4 15 200 sigNever png0 (Or.inl rfl) (by decide)
    (by decide) (fun k => rfl)
